import Mathlib

/-!
Verification development for the xivdyetools-og-worker color/layout core.

JavaScript strings are modeled as lists of Unicode code points (`List Nat`);
JavaScript numbers appearing in integer positions are modeled as `Int`/`Nat`,
and floating-point values as exact rationals `ℚ`, with `Option` capturing the
NaN value where the code can produce it (`none` = NaN).  The palette database
and the OKLAB distance function live in the external `@xivdyetools/core`
package, so they are taken as parameters throughout.
-/

namespace XivOg

/-- Code points of a Lean string literal, used to write concrete JS strings. -/
def codes (s : String) : List Nat := s.data.map Char.toNat

/-- Whether a code point is an ASCII hexadecimal digit (0-9, a-f, A-F). -/
def isHexDigitCode (c : Nat) : Bool :=
  (48 ≤ c && c ≤ 57) || (97 ≤ c && c ≤ 102) || (65 ≤ c && c ≤ 70)

/-- Numeric value of a hexadecimal digit code point (junk digits map to 0). -/
def hexVal (c : Nat) : Nat :=
  if 48 ≤ c && c ≤ 57 then c - 48
  else if 97 ≤ c && c ≤ 102 then c - 87
  else if 65 ≤ c && c ≤ 70 then c - 55
  else 0

/-- Code point of the lowercase hexadecimal digit for a value below 16. -/
def digitCode (v : Nat) : Nat := if v < 10 then v + 48 else v + 87

/-- ASCII lowercasing of one code point. -/
def lowerCode (c : Nat) : Nat := if 65 ≤ c && c ≤ 90 then c + 32 else c

/-- Fueled helper computing the base-16 digit string of a natural number. -/
def hexRepAux : Nat → Nat → List Nat
  | 0, n => [digitCode (n % 16)]
  | fuel + 1, n =>
      if n < 16 then [digitCode n] else hexRepAux fuel (n / 16) ++ [digitCode (n % 16)]

/-- Digit string of `n.toString(16)` for a natural number `n` (lowercase). -/
def hexRep (n : Nat) : List Nat := hexRepAux n n

/-- Digit string of `n.toString(16)` for an integer (45 is the minus sign). -/
def intHexRep (n : Int) : List Nat :=
  if n < 0 then 45 :: hexRep n.natAbs else hexRep n.toNat

/-- JS `padStart(2, '0')` on a code-point list (48 is the zero digit). -/
def padStart2 (l : List Nat) : List Nat := List.replicate (2 - l.length) 48 ++ l

/-- JS `String.prototype.replace` with a single-character pattern and empty
replacement: removes the first occurrence of `x`, if any. -/
def removeFirst (x : Nat) : List Nat → List Nat
  | [] => []
  | c :: cs => if c = x then cs else c :: removeFirst x cs

/-- JS `slice(a, b)` for natural bounds `a ≤ b`. -/
def sliceN (l : List Nat) (a b : Nat) : List Nat := (l.drop a).take (b - a)

/-- Accumulator loop of `parseInt(s, 16)`: consumes leading hex digits. -/
def parseHexAux : List Nat → Nat → Nat
  | [], acc => acc
  | c :: cs, acc =>
      if isHexDigitCode c then parseHexAux cs (16 * acc + hexVal c) else acc

/-- JS `parseInt(s, 16)`: parses the longest prefix of hexadecimal digits and
yields NaN (`none`) when the string does not start with a hex digit.  Modeled
for inputs without leading whitespace or sign, which is how the program calls
it. -/
def parseHex : List Nat → Option Nat
  | [] => none
  | c :: cs => if isHexDigitCode c then some (parseHexAux (c :: cs) 0) else none

/-- RGB components as returned by `hexToRgb`; `none` models a NaN channel. -/
structure RGB where
  r : Option Nat
  g : Option Nat
  b : Option Nat
deriving DecidableEq, Repr

/-- base.ts `hexToRgb`: strips the first `#` (code 35) and parses the three
2-character slices with `parseInt(·, 16)`.  No validation is performed. -/
def hexToRgb (hex : List Nat) : RGB :=
  let cleanHex := removeFirst 35 hex
  { r := parseHex (sliceN cleanHex 0 2)
  , g := parseHex (sliceN cleanHex 2 4)
  , b := parseHex (sliceN cleanHex 4 6) }

/-- base.ts `rgbToHex` on integer-or-NaN channel values: each channel is
rendered with `toString(16)` and `padStart(2, '0')` and the results are
concatenated after a `#`.  `codes "NaN"` is the rendering of a NaN channel
(NaN.toString(16) is the string "NaN", unchanged by padStart). -/
def rgbToHex (r g b : Option Int) : List Nat :=
  let render := fun (x : Option Int) =>
    padStart2 (match x with | some n => intHexRep n | none => codes "NaN")
  35 :: (render r ++ render g ++ render b)

/-- Spec-side: strip one optional leading `#`. -/
def stripHash (l : List Nat) : List Nat :=
  match l with
  | [] => []
  | c :: rest => if c = 35 then rest else c :: rest

/-- Spec-side: a valid 6-digit hex color string, with optional leading `#`. -/
def validHex (l : List Nat) : Bool :=
  (stripHash l).length = 6 && (stripHash l).all isHexDigitCode

/-- Spec-side normalization: leading `#` and lowercase digits. -/
def normalizeHex (l : List Nat) : List Nat := 35 :: (stripHash l).map lowerCode

/-! Basic digit-level lemmas. -/

theorem hexVal_lt_16 {c : Nat} (h : isHexDigitCode c = true) : hexVal c < 16 := by
  unfold isHexDigitCode at h
  unfold hexVal
  split_ifs <;> simp_all <;> omega

theorem digitCode_hexVal {c : Nat} (h : isHexDigitCode c = true) :
    digitCode (hexVal c) = lowerCode c := by
  unfold isHexDigitCode at h
  unfold hexVal digitCode lowerCode
  split_ifs <;> simp_all <;> omega

theorem parseHex_pair {c0 c1 : Nat} (h0 : isHexDigitCode c0 = true)
    (h1 : isHexDigitCode c1 = true) :
    parseHex [c0, c1] = some (16 * hexVal c0 + hexVal c1) := by
  simp [parseHex, parseHexAux, h0, h1]

theorem hexRepAux_small {fuel n : Nat} (h : n < 16) :
    hexRepAux fuel n = [digitCode n] := by
  cases fuel with
  | zero => simp [hexRepAux, Nat.mod_eq_of_lt h]
  | succ f => simp [hexRepAux, h]

theorem hexRep_small {n : Nat} (h : n < 16) : hexRep n = [digitCode n] :=
  hexRepAux_small h

theorem hexRepAux_two {fuel n : Nat} (h16 : 16 ≤ n) (h : n < 256) (hf : 1 ≤ fuel) :
    hexRepAux fuel n = [digitCode (n / 16), digitCode (n % 16)] := by
  match fuel, hf with
  | f + 1, _ =>
    show (if n < 16 then [digitCode n] else hexRepAux f (n / 16) ++ [digitCode (n % 16)]) = _
    rw [if_neg (by omega), hexRepAux_small (by omega)]
    rfl

theorem hexRep_two_digits {n : Nat} (h16 : 16 ≤ n) (h : n < 256) :
    hexRep n = [digitCode (n / 16), digitCode (n % 16)] :=
  hexRepAux_two h16 h (by omega)

theorem padStart2_pair {n : Nat} (h : n < 256) :
    padStart2 (hexRep n) = [digitCode (n / 16), digitCode (n % 16)] := by
  by_cases h16 : n < 16
  · have hd : n / 16 = 0 := by omega
    have hm : n % 16 = n := by omega
    rw [hexRep_small h16]
    simp only [padStart2, List.length_cons, List.length_nil]
    rw [hd, hm]
    rfl
  · rw [hexRep_two_digits (by omega) h]
    simp [padStart2]

theorem digitCode_is_lower_hex {v : Nat} (h : v < 16) :
    isHexDigitCode (digitCode v) = true ∧ lowerCode (digitCode v) = digitCode v := by
  unfold digitCode isHexDigitCode lowerCode
  split_ifs <;> simp_all <;> omega

/-- Valid two hex digits parse to the expected value below 256. -/
theorem parse_value_lt {c0 c1 : Nat} (h0 : isHexDigitCode c0 = true)
    (h1 : isHexDigitCode c1 = true) : 16 * hexVal c0 + hexVal c1 < 256 := by
  have := hexVal_lt_16 h0
  have := hexVal_lt_16 h1
  omega

theorem removeFirst_not_mem {x : Nat} {l : List Nat} (h : x ∉ l) :
    removeFirst x l = l := by
  induction l with
  | nil => rfl
  | cons c cs ih =>
    simp only [List.mem_cons, not_or] at h
    simp [removeFirst, Ne.symm h.1, ih h.2]

theorem validHex_strip {h : List Nat} (hv : validHex h = true) :
    removeFirst 35 h = stripHash h ∧ (stripHash h).length = 6 ∧
      ∀ c ∈ stripHash h, isHexDigitCode c = true := by
  unfold validHex at hv
  simp only [Bool.and_eq_true, decide_eq_true_eq, List.all_eq_true] at hv
  refine ⟨?_, hv.1, hv.2⟩
  cases h with
  | nil => simp [stripHash] at hv
  | cons c rest =>
    by_cases hc : c = 35
    · subst hc
      simp [removeFirst, stripHash]
    · have hstrip : stripHash (c :: rest) = c :: rest := by simp [stripHash, hc]
      rw [hstrip]
      apply removeFirst_not_mem
      intro hmem
      have h35 := hv.2 35 (by rw [hstrip]; exact hmem)
      simp [isHexDigitCode] at h35

theorem exists_six {l : List Nat} (h : l.length = 6) :
    ∃ a b c d e f, l = [a, b, c, d, e, f] := by
  rcases l with _ | ⟨a, _ | ⟨b, _ | ⟨c, _ | ⟨d, _ | ⟨e, _ | ⟨f, rest⟩⟩⟩⟩⟩⟩ <;>
    simp only [List.length_cons, List.length_nil] at h <;> try omega
  have hrest : rest = [] := by
    rw [← List.length_eq_zero]
    omega
  subst hrest
  exact ⟨a, b, c, d, e, f, rfl⟩

theorem channel_roundtrip {c0 c1 : Nat} (h0 : isHexDigitCode c0 = true)
    (h1 : isHexDigitCode c1 = true) :
    parseHex [c0, c1] = some (16 * hexVal c0 + hexVal c1) ∧
      16 * hexVal c0 + hexVal c1 < 256 ∧
      padStart2 (intHexRep ((16 * hexVal c0 + hexVal c1 : Nat) : Int)) =
        [lowerCode c0, lowerCode c1] := by
  have hv0 := hexVal_lt_16 h0
  have hv1 := hexVal_lt_16 h1
  refine ⟨parseHex_pair h0 h1, by omega, ?_⟩
  have hnn : ¬ ((16 * hexVal c0 + hexVal c1 : Nat) : Int) < 0 := by omega
  unfold intHexRep
  rw [if_neg hnn, Int.toNat_natCast, padStart2_pair (by omega)]
  have hdiv : (16 * hexVal c0 + hexVal c1) / 16 = hexVal c0 := by omega
  have hmod : (16 * hexVal c0 + hexVal c1) % 16 = hexVal c1 := by omega
  rw [hdiv, hmod, digitCode_hexVal h0, digitCode_hexVal h1]

/-- Complete evaluation of `hexToRgb` on a valid hex string: all three
channels parse, are below 256, and `rgbToHex` maps them back to the
lowercase-normalized input.  Shared by several claim theorems. -/
theorem hexToRgb_valid_eval {h : List Nat} (hv : validHex h = true) :
    ∃ r g b : Nat, hexToRgb h = ⟨some r, some g, some b⟩ ∧
      r ≤ 255 ∧ g ≤ 255 ∧ b ≤ 255 ∧
      rgbToHex (some (r : Int)) (some (g : Int)) (some (b : Int)) = normalizeHex h := by
  obtain ⟨hclean, hlen, hdig⟩ := validHex_strip hv
  obtain ⟨c0, c1, c2, c3, c4, c5, hsix⟩ := exists_six hlen
  have d0 := hdig c0 (by rw [hsix]; simp)
  have d1 := hdig c1 (by rw [hsix]; simp)
  have d2 := hdig c2 (by rw [hsix]; simp)
  have d3 := hdig c3 (by rw [hsix]; simp)
  have d4 := hdig c4 (by rw [hsix]; simp)
  have d5 := hdig c5 (by rw [hsix]; simp)
  obtain ⟨p01, l01, e01⟩ := channel_roundtrip d0 d1
  obtain ⟨p23, l23, e23⟩ := channel_roundtrip d2 d3
  obtain ⟨p45, l45, e45⟩ := channel_roundtrip d4 d5
  refine ⟨16 * hexVal c0 + hexVal c1, 16 * hexVal c2 + hexVal c3,
    16 * hexVal c4 + hexVal c5, ?_, by omega, by omega, by omega, ?_⟩
  · unfold hexToRgb
    rw [hclean, hsix]
    have s01 : sliceN [c0, c1, c2, c3, c4, c5] 0 2 = [c0, c1] := rfl
    have s23 : sliceN [c0, c1, c2, c3, c4, c5] 2 4 = [c2, c3] := rfl
    have s45 : sliceN [c0, c1, c2, c3, c4, c5] 4 6 = [c4, c5] := rfl
    simp only [s01, s23, s45, p01, p23, p45]
  · unfold rgbToHex normalizeHex
    rw [hsix]
    simp only [e01, e23, e45, List.map]
    rfl

/-! ## C5 / C6 / C7: the color space converter in base.ts -/

/-- C5: for every valid 6-digit hex string (with or without a leading `#`,
any letter case), `rgbToHex` applied to the components of `hexToRgb` returns
the input normalized to a leading `#` with lowercase digits. -/
theorem hex_roundtrip (h : List Nat) (hv : validHex h = true) :
    ∃ r g b : Nat, hexToRgb h = ⟨some r, some g, some b⟩ ∧
      rgbToHex (some (r : Int)) (some (g : Int)) (some (b : Int)) = normalizeHex h := by
  obtain ⟨r, g, b, he, _, _, _, hrt⟩ := hexToRgb_valid_eval hv
  exact ⟨r, g, b, he, hrt⟩

/-- Helper: on integer channels in [0, 255], `rgbToHex` yields `#` plus six
lowercase hex digits, hence a valid hex string. -/
theorem rgbToHex_bounds_valid (r g b : Int) (hr0 : 0 ≤ r) (hr1 : r ≤ 255)
    (hg0 : 0 ≤ g) (hg1 : g ≤ 255) (hb0 : 0 ≤ b) (hb1 : b ≤ 255) :
    ∃ l : List Nat, rgbToHex (some r) (some g) (some b) = 35 :: l ∧
      l.length = 6 ∧ (∀ c ∈ l, isHexDigitCode c = true ∧ lowerCode c = c) ∧
      validHex (rgbToHex (some r) (some g) (some b)) = true := by
  have channel : ∀ x : Int, 0 ≤ x → x ≤ 255 →
      ∃ a0 a1, padStart2 (intHexRep x) = [a0, a1] ∧
        (isHexDigitCode a0 = true ∧ lowerCode a0 = a0) ∧
        (isHexDigitCode a1 = true ∧ lowerCode a1 = a1) := by
    intro x hx0 hx1
    have hnn : ¬ x < 0 := by omega
    have hlt : x.toNat < 256 := by omega
    refine ⟨digitCode (x.toNat / 16), digitCode (x.toNat % 16), ?_, ?_, ?_⟩
    · unfold intHexRep
      rw [if_neg hnn, padStart2_pair hlt]
    · exact digitCode_is_lower_hex (by omega)
    · exact digitCode_is_lower_hex (by omega)
  obtain ⟨r0, r1, er, hr0', hr1'⟩ := channel r hr0 hr1
  obtain ⟨g0, g1, eg, hg0', hg1'⟩ := channel g hg0 hg1
  obtain ⟨b0, b1, eb, hb0', hb1'⟩ := channel b hb0 hb1
  have hform : rgbToHex (some r) (some g) (some b) = 35 :: [r0, r1, g0, g1, b0, b1] := by
    unfold rgbToHex
    simp only [er, eg, eb]
    rfl
  refine ⟨[r0, r1, g0, g1, b0, b1], hform, rfl, ?_, ?_⟩
  · intro c hc
    simp only [List.mem_cons, List.not_mem_nil, or_false] at hc
    rcases hc with rfl | rfl | rfl | rfl | rfl | rfl
    · exact hr0'
    · exact hr1'
    · exact hg0'
    · exact hg1'
    · exact hb0'
    · exact hb1'
  · rw [hform]
    have hstrip : stripHash (35 :: [r0, r1, g0, g1, b0, b1]) = [r0, r1, g0, g1, b0, b1] := by
      simp [stripHash]
    unfold validHex
    rw [hstrip]
    simp only [Bool.and_eq_true, decide_eq_true_eq, List.all_eq_true]
    refine ⟨rfl, ?_⟩
    intro c hc
    simp only [List.mem_cons, List.not_mem_nil, or_false] at hc
    rcases hc with rfl | rfl | rfl | rfl | rfl | rfl
    · exact hr0'.1
    · exact hr1'.1
    · exact hg0'.1
    · exact hg1'.1
    · exact hb0'.1
    · exact hb1'.1

/-- C6 (amended): on integer channel values already in [0, 255], `rgbToHex`
produces `#` followed by exactly 6 lowercase hexadecimal digits; the function
itself performs no clamping or rounding of its inputs. -/
theorem rgbToHex_wellformed (r g b : Int) (hr0 : 0 ≤ r) (hr1 : r ≤ 255)
    (hg0 : 0 ≤ g) (hg1 : g ≤ 255) (hb0 : 0 ≤ b) (hb1 : b ≤ 255) :
    ∃ l : List Nat, rgbToHex (some r) (some g) (some b) = 35 :: l ∧
      l.length = 6 ∧ (∀ c ∈ l, isHexDigitCode c = true ∧ lowerCode c = c) ∧
      validHex (rgbToHex (some r) (some g) (some b)) = true :=
  rgbToHex_bounds_valid r g b hr0 hr1 hg0 hg1 hb0 hb1

/-- C6 counterexample: `rgbToHex(300, 0, 0)` is `"#12c0000"`, an 8-character
string: the channel 300 is neither clamped to 255 nor padded to exactly two
digits, refuting the claimed clamping and fixed-width output. -/
theorem rgbToHex_no_clamp :
    rgbToHex (some 300) (some 0) (some 0) = codes "#12c0000" ∧
      (rgbToHex (some 300) (some 0) (some 0)).length ≠ 7 := by
  constructor <;> decide

/-- C7 (amended): `hexToRgb` never raises.  On every valid input it returns
channels in [0, 255], but on malformed input it silently returns either NaN
channels or ordinary parsed values (extra characters are ignored), with no
`InvalidFormat` failure signal of any kind. -/
theorem hexToRgb_no_error :
    (∀ h : List Nat, validHex h = true →
      ∃ r g b : Nat, hexToRgb h = ⟨some r, some g, some b⟩ ∧
        r ≤ 255 ∧ g ≤ 255 ∧ b ≤ 255) ∧
    hexToRgb (codes "#12345678") = ⟨some 18, some 52, some 86⟩ ∧
    validHex (codes "#12345678") = false ∧
    hexToRgb (codes "zzzzzz") = ⟨none, none, none⟩ := by
  refine ⟨?_, by decide, by decide, by decide⟩
  intro h hv
  obtain ⟨r, g, b, he, hr, hg, hb, _⟩ := hexToRgb_valid_eval hv
  exact ⟨r, g, b, he, hr, hg, hb⟩

/-- C7 counterexample: on the malformed 8-digit input `"#12345678"` the
converter does not fail: it returns the ordinary channel triple (18, 52, 86),
indistinguishable from a successful parse. -/
theorem hexToRgb_invalid_silent :
    hexToRgb (codes "#12345678") = ⟨some 18, some 52, some 86⟩ ∧
      validHex (codes "#12345678") = false := by
  constructor <;> decide

/-- Witness for the universally quantified part of the round-trip theorem. -/
theorem hex_roundtrip_witness :
    validHex (codes "#8B4513") = true ∧
      ∃ r g b : Nat, hexToRgb (codes "#8B4513") = ⟨some r, some g, some b⟩ ∧
        rgbToHex (some (r : Int)) (some (g : Int)) (some (b : Int)) =
          normalizeHex (codes "#8B4513") :=
  ⟨by decide, hex_roundtrip (codes "#8B4513") (by decide)⟩

/-- Witness instantiating the well-formedness half of the rgbToHex theorem. -/
theorem rgbToHex_wellformed_witness :
    ∃ l : List Nat, rgbToHex (some 139) (some 69) (some 19) = 35 :: l ∧
      l.length = 6 ∧ (∀ c ∈ l, isHexDigitCode c = true ∧ lowerCode c = c) ∧
      validHex (rgbToHex (some 139) (some 69) (some 19)) = true :=
  rgbToHex_wellformed 139 69 19 (by decide) (by decide) (by decide) (by decide)
    (by decide) (by decide)

/-- Witness instantiating the valid-input half of the hexToRgb theorem. -/
theorem hexToRgb_no_error_witness :
    validHex (codes "ff00aa") = true ∧
      ∃ r g b : Nat, hexToRgb (codes "ff00aa") = ⟨some r, some g, some b⟩ ∧
        r ≤ 255 ∧ g ≤ 255 ∧ b ≤ 255 :=
  ⟨by decide, hexToRgb_no_error.1 (codes "ff00aa") (by decide)⟩

/-! ## C8: relative luminance and the contrast text color (base.ts)

The gamma expansion uses `Math.pow` with a fractional exponent, so this part
of the model lives over the real numbers. -/

/-- Gamma expansion of one channel, from base.ts `getLuminance`. -/
noncomputable def gammaExpand (c : Nat) : ℝ :=
  if (c : ℝ) / 255 ≤ 0.03928 then ((c : ℝ) / 255) / 12.92
  else (((c : ℝ) / 255 + 0.055) / 1.055) ^ (2.4 : ℝ)

/-- base.ts `getLuminance`: weighted sum of the gamma-expanded channels.
A NaN channel (invalid hex input) propagates to a NaN luminance (`none`). -/
noncomputable def getLuminance (hex : List Nat) : Option ℝ :=
  match hexToRgb hex with
  | ⟨some r, some g, some b⟩ =>
      some (0.2126 * gammaExpand r + 0.7152 * gammaExpand g + 0.0722 * gammaExpand b)
  | _ => none

/-- JS `>` against a possibly-NaN left operand: NaN compares false. -/
def jsGT (x : Option ℝ) (t : ℝ) : Prop :=
  match x with
  | none => False
  | some v => t < v

open Classical in
/-- base.ts `getContrastTextColor`: dark text above the 0.179 threshold. -/
noncomputable def getContrastTextColor (bgHex : List Nat) : List Nat :=
  if jsGT (getLuminance bgHex) 0.179 then codes "#000000" else codes "#ffffff"

theorem gammaExpand_nonneg (c : Nat) : 0 ≤ gammaExpand c := by
  unfold gammaExpand
  split_ifs
  · positivity
  · exact Real.rpow_nonneg (by positivity) _

theorem gammaExpand_le_one {c : Nat} (h : c ≤ 255) : gammaExpand c ≤ 1 := by
  have hc : (c : ℝ) ≤ 255 := by exact_mod_cast h
  have hs0 : (0 : ℝ) ≤ (c : ℝ) / 255 := by positivity
  have hs1 : (c : ℝ) / 255 ≤ 1 := by
    rw [div_le_one (by norm_num)]
    exact hc
  unfold gammaExpand
  split_ifs with hle
  · have h1 : (c : ℝ) / 255 / 12.92 ≤ 1 / 12.92 :=
      (div_le_div_iff_of_pos_right (by norm_num)).mpr hs1
    have h2 : (1 : ℝ) / 12.92 ≤ 1 := by norm_num
    linarith
  · apply Real.rpow_le_one (by positivity) _ (by norm_num)
    rw [div_le_one (by norm_num)]
    linarith

theorem gammaExpand_zero : gammaExpand 0 = 0 := by
  unfold gammaExpand
  rw [if_pos (by norm_num)]
  norm_num

theorem gammaExpand_255 : gammaExpand 255 = 1 := by
  unfold gammaExpand
  rw [if_neg (by norm_num)]
  have hbase : (((255 : Nat) : ℝ) / 255 + 0.055) / 1.055 = 1 := by norm_num
  rw [hbase, Real.one_rpow]

/-- C8: for every valid hex color the luminance lies in [0, 1], black maps
to 0 and white to 1, and the contrast text color is chosen by the fixed
strict threshold 0.179 (above: dark text `#000000`, otherwise light text
`#ffffff`). -/
theorem luminance_spec :
    (∀ h : List Nat, validHex h = true →
      ∃ L : ℝ, getLuminance h = some L ∧ 0 ≤ L ∧ L ≤ 1) ∧
    getLuminance (codes "#000000") = some 0 ∧
    getLuminance (codes "#ffffff") = some 1 ∧
    (∀ (h : List Nat) (L : ℝ), getLuminance h = some L →
      (0.179 < L → getContrastTextColor h = codes "#000000") ∧
      (L ≤ 0.179 → getContrastTextColor h = codes "#ffffff")) := by
  have heval : ∀ (h : List Nat) (r g b : Nat), hexToRgb h = ⟨some r, some g, some b⟩ →
      getLuminance h =
        some (0.2126 * gammaExpand r + 0.7152 * gammaExpand g + 0.0722 * gammaExpand b) := by
    intro h r g b he
    unfold getLuminance
    rw [he]
  refine ⟨?_, ?_, ?_, ?_⟩
  · intro h hv
    obtain ⟨r, g, b, he, hr, hg, hb, _⟩ := hexToRgb_valid_eval hv
    refine ⟨_, heval h r g b he, ?_, ?_⟩
    · have := gammaExpand_nonneg r
      have := gammaExpand_nonneg g
      have := gammaExpand_nonneg b
      nlinarith
    · have := gammaExpand_le_one hr
      have := gammaExpand_le_one hg
      have := gammaExpand_le_one hb
      have := gammaExpand_nonneg r
      have := gammaExpand_nonneg g
      have := gammaExpand_nonneg b
      nlinarith
  · rw [heval (codes "#000000") 0 0 0 (by decide), gammaExpand_zero]
    norm_num
  · rw [heval (codes "#ffffff") 255 255 255 (by decide), gammaExpand_255]
    norm_num
  · intro h L hL
    constructor
    · intro hgt
      unfold getContrastTextColor
      rw [if_pos]
      rw [hL]
      exact hgt
    · intro hle
      unfold getContrastTextColor
      rw [if_neg]
      rw [hL]
      simp only [jsGT, not_lt]
      exact hle

/-- Witness instantiating the luminance theorem at white. -/
theorem luminance_spec_witness :
    getContrastTextColor (codes "#ffffff") = codes "#000000" :=
  ((luminance_spec.2.2.2 (codes "#ffffff") 1 luminance_spec.2.2.1).1 (by norm_num))

/-! ## JS float arithmetic on exact rationals, with NaN as `none` -/

/-- Lift a parsed channel to a rational-or-NaN JS number. -/
def jqOfNat : Option Nat → Option ℚ
  | some n => some ((n : ℚ))
  | none => none

def jqAdd (a b : Option ℚ) : Option ℚ :=
  match a, b with
  | some x, some y => some (x + y)
  | _, _ => none

def jqSub (a b : Option ℚ) : Option ℚ :=
  match a, b with
  | some x, some y => some (x - y)
  | _, _ => none

def jqMul (a b : Option ℚ) : Option ℚ :=
  match a, b with
  | some x, some y => some (x * y)
  | _, _ => none

/-- JS `Math.max(c, x)` with constant first argument; NaN propagates. -/
def jqMax (c : ℚ) (x : Option ℚ) : Option ℚ := x.map (fun v => max c v)

/-- JS `Math.min(c, x)` with constant first argument; NaN propagates. -/
def jqMin (c : ℚ) (x : Option ℚ) : Option ℚ := x.map (fun v => min c v)

/-- JS `Math.round`: half rounds toward positive infinity. -/
def qRound (q : ℚ) : Int := ⌊q + 1 / 2⌋

def jqRound (x : Option ℚ) : Option Int := x.map qRound

/-! ## C4: the color vision simulator (accessibility.ts) -/

inductive VisionType where
  | normal
  | protanopia
  | deuteranopia
  | tritanopia
  | achromatopsia
deriving DecidableEq, Repr

/-- accessibility.ts `VISION_MATRICES`, with the exact decimal constants. -/
def VISION_MATRICES : VisionType → List (List ℚ)
  | .normal => [[1, 0, 0], [0, 1, 0], [0, 0, 1]]
  | .protanopia => [[0.567, 0.433, 0], [0.558, 0.442, 0], [0, 0.242, 0.758]]
  | .deuteranopia => [[0.625, 0.375, 0], [0.7, 0.3, 0], [0, 0.3, 0.7]]
  | .tritanopia => [[0.95, 0.05, 0], [0, 0.433, 0.567], [0, 0.475, 0.525]]
  | .achromatopsia =>
      [[0.299, 0.587, 0.114], [0.299, 0.587, 0.114], [0.299, 0.587, 0.114]]

/-- Matrix entry access `matrix[i][j]`. -/
def mEntry (m : List (List ℚ)) (i j : Nat) : ℚ := (m.getD i []).getD j 0

/-- One output channel of the simulation:
`Math.round(Math.min(255, Math.max(0, m[i][0]*r + m[i][1]*g + m[i][2]*b)))`. -/
def applyRow (m : List (List ℚ)) (i : Nat) (r g b : Option ℚ) : Option Int :=
  jqRound (jqMin 255 (jqMax 0
    (jqAdd (jqAdd (jqMul (some (mEntry m i 0)) r) (jqMul (some (mEntry m i 1)) g))
      (jqMul (some (mEntry m i 2)) b))))

/-- accessibility.ts `simulateColorVision`: identity for normal vision,
otherwise the matrix transform with per-channel clamping and rounding. -/
def simulateColorVision (hex : List Nat) (visionType : VisionType) : List Nat :=
  match visionType with
  | .normal => hex
  | _ =>
    let rgb := hexToRgb hex
    let m := VISION_MATRICES visionType
    let r := jqOfNat rgb.r
    let g := jqOfNat rgb.g
    let b := jqOfNat rgb.b
    rgbToHex (applyRow m 0 r g b) (applyRow m 1 r g b) (applyRow m 2 r g b)

theorem qRound_mem_range {q : ℚ} (h0 : 0 ≤ q) (h1 : q ≤ 255) :
    0 ≤ qRound q ∧ qRound q ≤ 255 := by
  unfold qRound
  constructor
  · exact Int.le_floor.mpr (by push_cast; linarith)
  · have : (⌊q + 1 / 2⌋ : Int) < 256 := Int.floor_lt.mpr (by push_cast; linarith)
    omega

theorem applyRow_some_bounds (m : List (List ℚ)) (i : Nat) (r g b : ℚ) :
    ∃ k : Int, applyRow m i (some r) (some g) (some b) = some k ∧
      0 ≤ k ∧ k ≤ 255 := by
  refine ⟨qRound (min 255 (max 0
    (mEntry m i 0 * r + mEntry m i 1 * g + mEntry m i 2 * b))), rfl, ?_⟩
  have h0 : (0 : ℚ) ≤ min 255 (max 0
      (mEntry m i 0 * r + mEntry m i 1 * g + mEntry m i 2 * b)) :=
    le_min (by norm_num) (le_max_left _ _)
  have h1 : min 255 (max 0
      (mEntry m i 0 * r + mEntry m i 1 * g + mEntry m i 2 * b)) ≤ 255 :=
    min_le_left _ _
  exact qRound_mem_range h0 h1

theorem simulateColorVision_valid {hex : List Nat} (v : VisionType)
    (hv : validHex hex = true) : validHex (simulateColorVision hex v) = true := by
  obtain ⟨r, g, b, he, hr, hg, hb, _⟩ := hexToRgb_valid_eval hv
  cases v with
  | normal => exact hv
  | protanopia =>
    simp only [simulateColorVision, he, jqOfNat]
    obtain ⟨k0, e0, hk0⟩ := applyRow_some_bounds (VISION_MATRICES .protanopia) 0 r g b
    obtain ⟨k1, e1, hk1⟩ := applyRow_some_bounds (VISION_MATRICES .protanopia) 1 r g b
    obtain ⟨k2, e2, hk2⟩ := applyRow_some_bounds (VISION_MATRICES .protanopia) 2 r g b
    rw [e0, e1, e2]
    exact (rgbToHex_bounds_valid k0 k1 k2 hk0.1 hk0.2 hk1.1 hk1.2 hk2.1 hk2.2).choose_spec.2.2.2
  | deuteranopia =>
    simp only [simulateColorVision, he, jqOfNat]
    obtain ⟨k0, e0, hk0⟩ := applyRow_some_bounds (VISION_MATRICES .deuteranopia) 0 r g b
    obtain ⟨k1, e1, hk1⟩ := applyRow_some_bounds (VISION_MATRICES .deuteranopia) 1 r g b
    obtain ⟨k2, e2, hk2⟩ := applyRow_some_bounds (VISION_MATRICES .deuteranopia) 2 r g b
    rw [e0, e1, e2]
    exact (rgbToHex_bounds_valid k0 k1 k2 hk0.1 hk0.2 hk1.1 hk1.2 hk2.1 hk2.2).choose_spec.2.2.2
  | tritanopia =>
    simp only [simulateColorVision, he, jqOfNat]
    obtain ⟨k0, e0, hk0⟩ := applyRow_some_bounds (VISION_MATRICES .tritanopia) 0 r g b
    obtain ⟨k1, e1, hk1⟩ := applyRow_some_bounds (VISION_MATRICES .tritanopia) 1 r g b
    obtain ⟨k2, e2, hk2⟩ := applyRow_some_bounds (VISION_MATRICES .tritanopia) 2 r g b
    rw [e0, e1, e2]
    exact (rgbToHex_bounds_valid k0 k1 k2 hk0.1 hk0.2 hk1.1 hk1.2 hk2.1 hk2.2).choose_spec.2.2.2
  | achromatopsia =>
    simp only [simulateColorVision, he, jqOfNat]
    obtain ⟨k0, e0, hk0⟩ := applyRow_some_bounds (VISION_MATRICES .achromatopsia) 0 r g b
    obtain ⟨k1, e1, hk1⟩ := applyRow_some_bounds (VISION_MATRICES .achromatopsia) 1 r g b
    obtain ⟨k2, e2, hk2⟩ := applyRow_some_bounds (VISION_MATRICES .achromatopsia) 2 r g b
    rw [e0, e1, e2]
    exact (rgbToHex_bounds_valid k0 k1 k2 hk0.1 hk0.2 hk1.1 hk1.2 hk2.1 hk2.2).choose_spec.2.2.2

/-- C4: simulating normal vision returns the input unchanged for every
string; the achromatopsia matrix is the luminance row replicated three
times; on valid hex input every deficiency type produces a valid (clamped,
rounded) hex color; and red under achromatopsia is `round(0.299*255) = 76`
in all three channels, i.e. `#4c4c4c`. -/
theorem vision_sim_spec :
    (∀ hex : List Nat, simulateColorVision hex .normal = hex) ∧
    VISION_MATRICES .achromatopsia = List.replicate 3 [0.299, 0.587, 0.114] ∧
    (∀ (hex : List Nat) (v : VisionType), validHex hex = true →
      validHex (simulateColorVision hex v) = true) ∧
    (simulateColorVision (codes "#FF0000") .achromatopsia = codes "#4c4c4c" ∧
      qRound (0.299 * 255) = 76) := by
  have hround : qRound (0.299 * 255) = 76 := by
    unfold qRound
    norm_num
  refine ⟨fun _ => rfl, rfl, fun hex v hv => simulateColorVision_valid v hv, ?_, hround⟩
  have hrgb : hexToRgb (codes "#FF0000") = ⟨some 255, some 0, some 0⟩ := by decide
  have hrow : ∀ i : Nat,
      applyRow (VISION_MATRICES .achromatopsia) i (some ((255 : Nat) : ℚ))
        (some ((0 : Nat) : ℚ)) (some ((0 : Nat) : ℚ)) =
        some (qRound (min 255 (max 0 (mEntry (VISION_MATRICES .achromatopsia) i 0 * 255 +
          mEntry (VISION_MATRICES .achromatopsia) i 1 * 0 +
          mEntry (VISION_MATRICES .achromatopsia) i 2 * 0)))) := by
    intro i
    norm_num [applyRow, jqRound, jqMin, jqMax, jqAdd, jqMul]
  have hval : ∀ i, i < 3 →
      qRound (min 255 (max 0 (mEntry (VISION_MATRICES .achromatopsia) i 0 * 255 +
        mEntry (VISION_MATRICES .achromatopsia) i 1 * 0 +
        mEntry (VISION_MATRICES .achromatopsia) i 2 * 0))) = 76 := by
    intro i hi
    interval_cases i <;>
      · show qRound _ = 76
        unfold qRound
        norm_num [mEntry, VISION_MATRICES]
  simp only [simulateColorVision, hrgb, jqOfNat]
  rw [hrow 0, hrow 1, hrow 2, hval 0 (by omega), hval 1 (by omega), hval 2 (by omega)]
  decide

/-- Witness instantiating the vision simulator theorem on a valid input. -/
theorem vision_sim_spec_witness :
    validHex (simulateColorVision (codes "#00FF00") .protanopia) = true :=
  vision_sim_spec.2.2.1 (codes "#00FF00") .protanopia (by decide)

/-! ## C1: the nearest-match engine (dye-helpers.ts)

The palette (`dyeService.getAllDyes()`) and the perceptual distance
(`ColorConverter.getDeltaE_Oklab`) come from the external core package, so
they are parameters `allDyes` and `deltaE`.  `Array.prototype.sort` is
stable (ECMAScript 2019), and the comparator `a.distance - b.distance` orders
by distance, so the sort is modeled by a stable insertion sort on the
distance key. -/

structure Dye where
  id : Int
  itemID : Int
  hex : List Nat
deriving DecidableEq, Repr

structure DyeMatch where
  dye : Dye
  distance : ℚ
deriving DecidableEq, Repr

/-- Stable insertion keeping earlier-listed elements first on equal keys. -/
def insertByDist (x : DyeMatch) : List DyeMatch → List DyeMatch
  | [] => [x]
  | y :: ys => if x.distance ≤ y.distance then x :: y :: ys else y :: insertByDist x ys

/-- Stable sort ascending by distance, as JS stable sort with the comparator
`(a, b) => a.distance - b.distance`. -/
def isortByDist : List DyeMatch → List DyeMatch
  | [] => []
  | x :: xs => insertByDist x (isortByDist xs)

/-- JS `slice(0, e)`, including the from-the-end behavior of a negative end. -/
def jsSliceTo {α : Type} (l : List α) (e : Int) : List α :=
  if e < 0 then l.take ((l.length : Int) + e).toNat else l.take e.toNat

/-- dye-helpers.ts `findClosestDyesWithDistance`.  At the call sites in this
repository the defaults `limit = 5` and `excludeIds = []` are passed
explicitly by the model. -/
def findClosestDyesWithDistance (allDyes : List Dye)
    (deltaE : List Nat → List Nat → ℚ) (hex : List Nat) (limit : Int)
    (excludeIds : List Int) : List DyeMatch :=
  let candidates := allDyes.filter (fun d => !(excludeIds.contains d.id))
  let withDistances := candidates.map
    (fun d => { dye := d, distance := deltaE hex d.hex : DyeMatch })
  jsSliceTo (isortByDist withDistances) limit

/-- Spec-side order: ascending distance, ties by original enumeration index. -/
def lexLE (a b : Nat × DyeMatch) : Prop :=
  a.2.distance < b.2.distance ∨ (a.2.distance = b.2.distance ∧ a.1 ≤ b.1)

/-- Strict version of the spec-side order. -/
def lexLT (a b : Nat × DyeMatch) : Prop :=
  a.2.distance < b.2.distance ∨ (a.2.distance = b.2.distance ∧ a.1 < b.1)

instance (a b : Nat × DyeMatch) : Decidable (lexLE a b) := by
  unfold lexLE
  infer_instance

/-- Spec-side stable insertion w.r.t. the lexicographic order. -/
def insertLex (x : Nat × DyeMatch) : List (Nat × DyeMatch) → List (Nat × DyeMatch)
  | [] => [x]
  | y :: ys => if lexLE x y then x :: y :: ys else y :: insertLex x ys

/-- Spec-side sort of the index-tagged list. -/
def isortLex : List (Nat × DyeMatch) → List (Nat × DyeMatch)
  | [] => []
  | x :: xs => insertLex x (isortLex xs)

theorem insertLex_perm (x : Nat × DyeMatch) (l : List (Nat × DyeMatch)) :
    List.Perm (insertLex x l) (x :: l) := by
  induction l with
  | nil => rfl
  | cons y ys ih =>
    unfold insertLex
    split_ifs
    · rfl
    · exact ((ih.cons y).trans (List.Perm.swap x y ys))

theorem isortLex_perm (l : List (Nat × DyeMatch)) : List.Perm (isortLex l) l := by
  induction l with
  | nil => rfl
  | cons x xs ih => exact (insertLex_perm x (isortLex xs)).trans (ih.cons x)

theorem lexLE_total (a b : Nat × DyeMatch) : lexLE a b ∨ lexLE b a := by
  unfold lexLE
  rcases lt_trichotomy a.2.distance b.2.distance with h | h | h
  · exact Or.inl (Or.inl h)
  · rcases Nat.le_total a.1 b.1 with h1 | h1
    · exact Or.inl (Or.inr ⟨h, h1⟩)
    · exact Or.inr (Or.inr ⟨h.symm, h1⟩)
  · exact Or.inr (Or.inl h)

theorem lexLE_trans {a b c : Nat × DyeMatch} (h1 : lexLE a b) (h2 : lexLE b c) :
    lexLE a c := by
  unfold lexLE at *
  rcases h1 with h1 | ⟨h1, h1i⟩ <;> rcases h2 with h2 | ⟨h2, h2i⟩
  · exact Or.inl (h1.trans h2)
  · exact Or.inl (h2 ▸ h1)
  · exact Or.inl (h1 ▸ h2)
  · exact Or.inr ⟨h1.trans h2, h1i.trans h2i⟩

theorem insertLex_sorted {l : List (Nat × DyeMatch)} (x : Nat × DyeMatch)
    (hs : l.Pairwise lexLE) : (insertLex x l).Pairwise lexLE := by
  induction l with
  | nil => simp [insertLex]
  | cons y ys ih =>
    rcases List.pairwise_cons.mp hs with ⟨hy, hys⟩
    unfold insertLex
    split_ifs with hxy
    · refine List.pairwise_cons.mpr ⟨?_, hs⟩
      intro z hz
      rcases List.mem_cons.mp hz with rfl | hz
      · exact hxy
      · exact lexLE_trans hxy (hy z hz)
    · refine List.pairwise_cons.mpr ⟨?_, ih hys⟩
      intro z hz
      have hz' := (insertLex_perm x ys).mem_iff.mp hz
      rcases List.mem_cons.mp hz' with rfl | hz'
      · rcases lexLE_total y z with h | h
        · exact h
        · exact absurd h hxy
      · exact hy z hz'

theorem isortLex_sorted (l : List (Nat × DyeMatch)) :
    (isortLex l).Pairwise lexLE := by
  induction l with
  | nil => simp [isortLex]
  | cons x xs ih => exact insertLex_sorted x ih

/-- Stability link: if `x` carries a smaller index than everything in `l`,
inserting on the lexicographic order projects to inserting on distance. -/
theorem insertLex_map_snd (x : Nat × DyeMatch) (l : List (Nat × DyeMatch))
    (hidx : ∀ p ∈ l, x.1 < p.1) :
    (insertLex x l).map Prod.snd = insertByDist x.2 (l.map Prod.snd) := by
  induction l with
  | nil => rfl
  | cons y ys ih =>
    have hxy : x.1 < y.1 := hidx y (by simp)
    by_cases hle : x.2.distance ≤ y.2.distance
    · have hlex : lexLE x y := by
        unfold lexLE
        rcases lt_or_eq_of_le hle with h | h
        · exact Or.inl h
        · exact Or.inr ⟨h, by omega⟩
      simp [insertLex, insertByDist, hlex, hle]
    · have hlex : ¬ lexLE x y := by
        unfold lexLE
        push_neg
        exact ⟨le_of_not_le hle, fun h => absurd h.le hle⟩
      have ih' := ih (fun p hp => hidx p (by simp [hp]))
      simp only [insertLex, insertByDist, if_neg hlex, if_neg hle, List.map_cons]
      simp only [List.map_cons] at ih'
      rw [ih']

theorem mem_enumFrom_le {k : Nat} {l : List DyeMatch} {p : Nat × DyeMatch}
    (h : p ∈ List.enumFrom k l) : k ≤ p.1 := by
  induction l generalizing k with
  | nil => simp [List.enumFrom] at h
  | cons x xs ih =>
    simp only [List.enumFrom, List.mem_cons] at h
    rcases h with rfl | h
    · exact le_refl _
    · exact Nat.le_of_succ_le (ih h)

/-- The stable distance sort is the projection of the lexicographic sort of
the index-tagged list: this is exactly tie-breaking by first-encountered
input order. -/
theorem isortLex_map_snd (l : List DyeMatch) (k : Nat) :
    (isortLex (List.enumFrom k l)).map Prod.snd = isortByDist l := by
  induction l generalizing k with
  | nil => rfl
  | cons x xs ih =>
    have hidx : ∀ p ∈ isortLex (List.enumFrom (k + 1) xs), (k, x).1 < p.1 := by
      intro p hp
      have hp' := (isortLex_perm (List.enumFrom (k + 1) xs)).mem_iff.mp hp
      have := mem_enumFrom_le hp'
      simp only
      omega
    show (insertLex (k, x) (isortLex (List.enumFrom (k + 1) xs))).map Prod.snd = _
    rw [insertLex_map_snd (k, x) _ hidx, ih (k + 1)]
    rfl

theorem enumFrom_fst_lt (k : Nat) (l : List DyeMatch) :
    (List.enumFrom k l).Pairwise (fun a b => a.1 < b.1) := by
  induction l generalizing k with
  | nil => simp [List.enumFrom]
  | cons x xs ih =>
    refine List.pairwise_cons.mpr ⟨?_, ih (k + 1)⟩
    intro p hp
    have := mem_enumFrom_le hp
    omega

theorem isortLex_pairwise_lt (l : List DyeMatch) :
    (isortLex l.enum).Pairwise lexLT := by
  have hle := isortLex_sorted l.enum
  have hne : (isortLex l.enum).Pairwise (fun a b => a.1 ≠ b.1) := by
    refine ((isortLex_perm l.enum).pairwise_iff (fun h => Ne.symm h)).mpr ?_
    have := enumFrom_fst_lt 0 l
    exact this.imp (fun h => Nat.ne_of_lt h)
  have := hle.and hne
  refine this.imp ?_
  rintro a b ⟨hab, hne⟩
  unfold lexLE at hab
  unfold lexLT
  rcases hab with h | ⟨hd, hi⟩
  · exact Or.inl h
  · exact Or.inr ⟨hd, lt_of_le_of_ne hi hne⟩

theorem insertByDist_perm (x : DyeMatch) (l : List DyeMatch) :
    List.Perm (insertByDist x l) (x :: l) := by
  induction l with
  | nil => rfl
  | cons y ys ih =>
    unfold insertByDist
    split_ifs
    · rfl
    · exact ((ih.cons y).trans (List.Perm.swap x y ys))

theorem isortByDist_perm (l : List DyeMatch) : List.Perm (isortByDist l) l := by
  induction l with
  | nil => rfl
  | cons x xs ih => exact (insertByDist_perm x (isortByDist xs)).trans (ih.cons x)

/-- C1: the nearest-match engine computes the distance of every non-excluded
palette dye, sorts ascending by distance with ties broken by first-encountered
palette order (witnessed by a lexicographically sorted permutation of the
index-tagged candidate list), truncates to `limit`, returns no excluded id,
and returns the empty list when every dye is excluded. -/
theorem findClosest_spec (allDyes : List Dye) (deltaE : List Nat → List Nat → ℚ)
    (hex : List Nat) (limit : Int) (excludeIds : List Int) (hlim : 0 ≤ limit) :
    ((findClosestDyesWithDistance allDyes deltaE hex limit excludeIds).length : Int)
        ≤ limit ∧
    (∀ m ∈ findClosestDyesWithDistance allDyes deltaE hex limit excludeIds,
      m.dye ∈ allDyes ∧ excludeIds.contains m.dye.id = false ∧
        m.distance = deltaE hex m.dye.hex) ∧
    (∃ sortedPairs : List (Nat × DyeMatch),
      List.Perm sortedPairs
        (((allDyes.filter (fun d => !(excludeIds.contains d.id))).map
          (fun d => { dye := d, distance := deltaE hex d.hex : DyeMatch })).enum) ∧
      sortedPairs.Pairwise lexLT ∧
      findClosestDyesWithDistance allDyes deltaE hex limit excludeIds =
        (sortedPairs.map Prod.snd).take limit.toNat) ∧
    ((∀ d ∈ allDyes, excludeIds.contains d.id = true) →
      findClosestDyesWithDistance allDyes deltaE hex limit excludeIds = []) := by
  have hslice : ∀ l : List DyeMatch, jsSliceTo l limit = l.take limit.toNat := by
    intro l
    unfold jsSliceTo
    rw [if_neg (by omega)]
  have hres : findClosestDyesWithDistance allDyes deltaE hex limit excludeIds =
      (isortByDist ((allDyes.filter (fun d => !(excludeIds.contains d.id))).map
        (fun d => { dye := d, distance := deltaE hex d.hex : DyeMatch }))).take
          limit.toNat := by
    unfold findClosestDyesWithDistance
    exact hslice _
  refine ⟨?_, ?_, ?_, ?_⟩
  · rw [hres]
    have := List.length_take_le limit.toNat (isortByDist
      ((allDyes.filter (fun d => !(excludeIds.contains d.id))).map
        (fun d => { dye := d, distance := deltaE hex d.hex : DyeMatch })))
    omega
  · intro m hm
    rw [hres] at hm
    have hm1 := List.mem_of_mem_take hm
    have hm2 := (isortByDist_perm _).mem_iff.mp hm1
    rcases List.mem_map.mp hm2 with ⟨d, hd, rfl⟩
    rcases List.mem_filter.mp hd with ⟨hd1, hd2⟩
    refine ⟨hd1, ?_, rfl⟩
    simp only [Bool.not_eq_true'] at hd2
    exact hd2
  · refine ⟨isortLex (((allDyes.filter (fun d => !(excludeIds.contains d.id))).map
      (fun d => { dye := d, distance := deltaE hex d.hex : DyeMatch })).enum),
      isortLex_perm _, isortLex_pairwise_lt _, ?_⟩
    rw [hres]
    exact congrArg (List.take limit.toNat) (isortLex_map_snd _ 0).symm
  · intro hall
    have hfilter : allDyes.filter (fun d => !(excludeIds.contains d.id)) = [] := by
      rw [List.filter_eq_nil_iff]
      intro d hd
      simpa using hall d hd
    rw [hres, hfilter]
    simp [isortByDist]

/-- Witness instantiating the nearest-match theorem on a two-dye palette. -/
theorem findClosest_spec_witness :
    (0 : Int) ≤ 1 ∧
    ((findClosestDyesWithDistance
      [{ id := 1, itemID := 11, hex := codes "#fe0000" },
       { id := 2, itemID := 12, hex := codes "#00ff00" }]
      (fun _ _ => 1) (codes "#ff0000") 1 []).length : Int) ≤ 1 :=
  ⟨by decide,
    (findClosest_spec
      [{ id := 1, itemID := 11, hex := codes "#fe0000" },
       { id := 2, itemID := 12, hex := codes "#00ff00" }]
      (fun _ _ => 1) (codes "#ff0000") 1 [] (by decide)).1⟩

/-! ## C3 / C9: the gradient engine (gradient.ts) and degenerate inputs -/

/-- gradient.ts `interpolateColor`: parses both colors exactly like
`hexToRgb` (the source repeats the same slices and `parseInt` calls), computes
`Math.round(c1 + (c2 - c1) * ratio)` per channel, and renders with the same
template as `rgbToHex`.  The third argument is the JS ratio, `none` = NaN. -/
def interpolateColor (color1 color2 : List Nat) (t : Option ℚ) : List Nat :=
  let hex1 := removeFirst 35 color1
  let hex2 := removeFirst 35 color2
  let r1 := parseHex (sliceN hex1 0 2)
  let g1 := parseHex (sliceN hex1 2 4)
  let b1 := parseHex (sliceN hex1 4 6)
  let r2 := parseHex (sliceN hex2 0 2)
  let g2 := parseHex (sliceN hex2 2 4)
  let b2 := parseHex (sliceN hex2 4 6)
  rgbToHex
    (jqRound (jqAdd (jqOfNat r1) (jqMul (jqSub (jqOfNat r2) (jqOfNat r1)) t)))
    (jqRound (jqAdd (jqOfNat g1) (jqMul (jqSub (jqOfNat g2) (jqOfNat g1)) t)))
    (jqRound (jqAdd (jqOfNat b1) (jqMul (jqSub (jqOfNat b2) (jqOfNat b1)) t)))

structure GradientStep where
  hex : List Nat
  matchedDye : Option Dye
  delta : Option ℚ
deriving DecidableEq, Repr

/-- gradient.ts `generateGradientSteps`: for `i` from 0 to `stepCount - 1`,
ratio `i / (stepCount - 1)` (0/0 = NaN when `stepCount = 1`; the loop body
never divides by zero with a nonzero numerator), each step resolved with
`findClosestDyesWithDistance(hex, {limit: 1})`. -/
def generateGradientSteps (allDyes : List Dye) (deltaE : List Nat → List Nat → ℚ)
    (startHex endHex : List Nat) (stepCount : Int) : List GradientStep :=
  (List.range stepCount.toNat).map (fun (i : Nat) =>
    let t : Option ℚ :=
      if stepCount - 1 = 0 then none else some ((i : ℚ) / ((stepCount : ℚ) - 1))
    let hx := interpolateColor startHex endHex t
    let found := findClosestDyesWithDistance allDyes deltaE hx 1 []
    { hex := hx
      matchedDye := found.head?.map (fun m => m.dye)
      delta := found.head?.map (fun m => m.distance) })

/-- swatch.ts line 63: `Math.min(Math.max(limit, 1), 4)`. -/
def swatchMatchLimit (limit : Int) : Int := min (max limit 1) 4

/-- swatch.ts: `color.startsWith('#') ? color : '#' + color`. -/
def ensureHash (l : List Nat) : List Nat :=
  match l with
  | 35 :: _ => l
  | _ => 35 :: l

/-- The matches computed by swatch.ts `generateSwatchOG` on the populated
path, with the clamped limit. -/
def swatchMatches (allDyes : List Dye) (deltaE : List Nat → List Nat → ℚ)
    (color : List Nat) (limit : Int) : List DyeMatch :=
  findClosestDyesWithDistance allDyes deltaE (ensureHash color)
    (swatchMatchLimit limit) []

theorem qRound_natCast (n : Nat) : qRound ((n : ℚ)) = (n : Int) := by
  unfold qRound
  rw [Int.floor_eq_iff]
  constructor <;> push_cast <;> linarith

/-- Evaluation of `interpolateColor` on parsed channels and a real ratio. -/
theorem interpolateColor_eval {startHex endHex : List Nat}
    {r1 g1 b1 r2 g2 b2 : Nat}
    (h1 : hexToRgb startHex = ⟨some r1, some g1, some b1⟩)
    (h2 : hexToRgb endHex = ⟨some r2, some g2, some b2⟩) (tq : ℚ) :
    interpolateColor startHex endHex (some tq) =
      rgbToHex (some (qRound ((r1 : ℚ) + ((r2 : ℚ) - (r1 : ℚ)) * tq)))
        (some (qRound ((g1 : ℚ) + ((g2 : ℚ) - (g1 : ℚ)) * tq)))
        (some (qRound ((b1 : ℚ) + ((b2 : ℚ) - (b1 : ℚ)) * tq))) := by
  have hr1 : parseHex (sliceN (removeFirst 35 startHex) 0 2) = some r1 :=
    congrArg RGB.r h1
  have hg1 : parseHex (sliceN (removeFirst 35 startHex) 2 4) = some g1 :=
    congrArg RGB.g h1
  have hb1 : parseHex (sliceN (removeFirst 35 startHex) 4 6) = some b1 :=
    congrArg RGB.b h1
  have hr2 : parseHex (sliceN (removeFirst 35 endHex) 0 2) = some r2 :=
    congrArg RGB.r h2
  have hg2 : parseHex (sliceN (removeFirst 35 endHex) 2 4) = some g2 :=
    congrArg RGB.g h2
  have hb2 : parseHex (sliceN (removeFirst 35 endHex) 4 6) = some b2 :=
    congrArg RGB.b h2
  unfold interpolateColor
  simp only [hr1, hg1, hb1, hr2, hg2, hb2]
  rfl

/-- The per-step characterization shared by the C3 theorem. -/
theorem gradient_step_eval (allDyes : List Dye) (deltaE : List Nat → List Nat → ℚ)
    {startHex endHex : List Nat} {r1 g1 b1 r2 g2 b2 : Nat}
    (h1 : hexToRgb startHex = ⟨some r1, some g1, some b1⟩)
    (h2 : hexToRgb endHex = ⟨some r2, some g2, some b2⟩)
    {stepCount : Int} (hn : 2 ≤ stepCount) {i : Nat} (hi : i < stepCount.toNat) :
    (generateGradientSteps allDyes deltaE startHex endHex stepCount)[i]? =
      some
        { hex := rgbToHex
            (some (qRound ((1 - (i : ℚ) / ((stepCount : ℚ) - 1)) * (r1 : ℚ) +
              ((i : ℚ) / ((stepCount : ℚ) - 1)) * (r2 : ℚ))))
            (some (qRound ((1 - (i : ℚ) / ((stepCount : ℚ) - 1)) * (g1 : ℚ) +
              ((i : ℚ) / ((stepCount : ℚ) - 1)) * (g2 : ℚ))))
            (some (qRound ((1 - (i : ℚ) / ((stepCount : ℚ) - 1)) * (b1 : ℚ) +
              ((i : ℚ) / ((stepCount : ℚ) - 1)) * (b2 : ℚ))))
          matchedDye := (findClosestDyesWithDistance allDyes deltaE
            (interpolateColor startHex endHex
              (some ((i : ℚ) / ((stepCount : ℚ) - 1)))) 1 []).head?.map
                (fun m => m.dye)
          delta := (findClosestDyesWithDistance allDyes deltaE
            (interpolateColor startHex endHex
              (some ((i : ℚ) / ((stepCount : ℚ) - 1)))) 1 []).head?.map
                (fun m => m.distance) } := by
  have hne : ¬ (stepCount - 1 = 0) := by omega
  unfold generateGradientSteps
  rw [List.getElem?_map, List.getElem?_range hi]
  simp only [Option.map_some', if_neg hne]
  have heq := interpolateColor_eval h1 h2 ((i : ℚ) / ((stepCount : ℚ) - 1))
  rw [heq]
  have harith : ∀ c1 c2 : Nat, (c1 : ℚ) + ((c2 : ℚ) - (c1 : ℚ)) *
      ((i : ℚ) / ((stepCount : ℚ) - 1)) =
      (1 - (i : ℚ) / ((stepCount : ℚ) - 1)) * (c1 : ℚ) +
        ((i : ℚ) / ((stepCount : ℚ) - 1)) * (c2 : ℚ) := by
    intro c1 c2
    ring
  rw [harith r1 r2, harith g1 g2, harith b1 b2]

/-- C3 (amended): for valid start and end hex and `stepCount ≥ 2`, step `i`
is the per-channel linear interpolation at ratio `i/(stepCount-1)` rounded
per channel, independently resolved against the nearest-match engine with
limit 1, and the first and last steps equal the start and end colors after
normalization to `#`-prefixed lowercase form (the code re-encodes them, so
exact string equality holds only for already-lowercase input). -/
theorem gradient_steps_spec (allDyes : List Dye) (deltaE : List Nat → List Nat → ℚ)
    (startHex endHex : List Nat) (stepCount : Int)
    (hs : validHex startHex = true) (he : validHex endHex = true)
    (hn : 2 ≤ stepCount) :
    (generateGradientSteps allDyes deltaE startHex endHex stepCount).length =
        stepCount.toNat ∧
    (∃ r1 g1 b1 r2 g2 b2 : Nat,
      hexToRgb startHex = ⟨some r1, some g1, some b1⟩ ∧
      hexToRgb endHex = ⟨some r2, some g2, some b2⟩ ∧
      ∀ i : Nat, i < stepCount.toNat →
        (generateGradientSteps allDyes deltaE startHex endHex stepCount)[i]? =
          some
            { hex := rgbToHex
                (some (qRound ((1 - (i : ℚ) / ((stepCount : ℚ) - 1)) * (r1 : ℚ) +
                  ((i : ℚ) / ((stepCount : ℚ) - 1)) * (r2 : ℚ))))
                (some (qRound ((1 - (i : ℚ) / ((stepCount : ℚ) - 1)) * (g1 : ℚ) +
                  ((i : ℚ) / ((stepCount : ℚ) - 1)) * (g2 : ℚ))))
                (some (qRound ((1 - (i : ℚ) / ((stepCount : ℚ) - 1)) * (b1 : ℚ) +
                  ((i : ℚ) / ((stepCount : ℚ) - 1)) * (b2 : ℚ))))
              matchedDye := (findClosestDyesWithDistance allDyes deltaE
                (interpolateColor startHex endHex
                  (some ((i : ℚ) / ((stepCount : ℚ) - 1)))) 1 []).head?.map
                    (fun m => m.dye)
              delta := (findClosestDyesWithDistance allDyes deltaE
                (interpolateColor startHex endHex
                  (some ((i : ℚ) / ((stepCount : ℚ) - 1)))) 1 []).head?.map
                    (fun m => m.distance) }) ∧
    ((generateGradientSteps allDyes deltaE startHex endHex stepCount)[0]?.map
        (fun st => st.hex) = some (normalizeHex startHex) ∧
      (generateGradientSteps allDyes deltaE startHex endHex
        stepCount)[stepCount.toNat - 1]?.map (fun st => st.hex) =
          some (normalizeHex endHex)) := by
  obtain ⟨r1, g1, b1, h1, hr1, hg1, hb1, hrt1⟩ := hexToRgb_valid_eval hs
  obtain ⟨r2, g2, b2, h2, hr2, hg2, hb2, hrt2⟩ := hexToRgb_valid_eval he
  have hlen : (generateGradientSteps allDyes deltaE startHex endHex
      stepCount).length = stepCount.toNat := by
    unfold generateGradientSteps
    rw [List.length_map, List.length_range]
  refine ⟨hlen, ⟨r1, g1, b1, r2, g2, b2, h1, h2,
    fun i hi => gradient_step_eval allDyes deltaE h1 h2 hn hi⟩, ?_, ?_⟩
  · have h0 := gradient_step_eval allDyes deltaE h1 h2 hn
      (show 0 < stepCount.toNat by omega)
    rw [h0]
    have ht : ((0 : Nat) : ℚ) / ((stepCount : ℚ) - 1) = 0 := by
      push_cast
      simp
    simp only [Option.map_some']
    rw [show ((1 - ((0 : Nat) : ℚ) / ((stepCount : ℚ) - 1)) * (r1 : ℚ) +
        (((0 : Nat) : ℚ) / ((stepCount : ℚ) - 1)) * (r2 : ℚ)) = (r1 : ℚ) by
      rw [ht]; ring]
    rw [show ((1 - ((0 : Nat) : ℚ) / ((stepCount : ℚ) - 1)) * (g1 : ℚ) +
        (((0 : Nat) : ℚ) / ((stepCount : ℚ) - 1)) * (g2 : ℚ)) = (g1 : ℚ) by
      rw [ht]; ring]
    rw [show ((1 - ((0 : Nat) : ℚ) / ((stepCount : ℚ) - 1)) * (b1 : ℚ) +
        (((0 : Nat) : ℚ) / ((stepCount : ℚ) - 1)) * (b2 : ℚ)) = (b1 : ℚ) by
      rw [ht]; ring]
    rw [qRound_natCast, qRound_natCast, qRound_natCast, hrt1]
  · have hlast := gradient_step_eval allDyes deltaE h1 h2 hn
      (show stepCount.toNat - 1 < stepCount.toNat by omega)
    rw [hlast]
    have ht : ((stepCount.toNat - 1 : Nat) : ℚ) / ((stepCount : ℚ) - 1) = 1 := by
      have hcast : ((stepCount.toNat - 1 : Nat) : ℚ) = (stepCount : ℚ) - 1 := by
        have h2' : (2 : Int) ≤ stepCount := hn
        have : ((stepCount.toNat - 1 : Nat) : Int) = stepCount - 1 := by omega
        exact_mod_cast congrArg (fun z : Int => (z : ℚ)) this
      rw [hcast]
      apply div_self
      intro hzero
      have : (stepCount : ℚ) = 1 := by linarith
      have : stepCount = 1 := by exact_mod_cast this
      omega
    simp only [Option.map_some']
    rw [show ((1 - ((stepCount.toNat - 1 : Nat) : ℚ) / ((stepCount : ℚ) - 1)) * (r1 : ℚ) +
        (((stepCount.toNat - 1 : Nat) : ℚ) / ((stepCount : ℚ) - 1)) * (r2 : ℚ)) = (r2 : ℚ) by
      rw [ht]; ring]
    rw [show ((1 - ((stepCount.toNat - 1 : Nat) : ℚ) / ((stepCount : ℚ) - 1)) * (g1 : ℚ) +
        (((stepCount.toNat - 1 : Nat) : ℚ) / ((stepCount : ℚ) - 1)) * (g2 : ℚ)) = (g2 : ℚ) by
      rw [ht]; ring]
    rw [show ((1 - ((stepCount.toNat - 1 : Nat) : ℚ) / ((stepCount : ℚ) - 1)) * (b1 : ℚ) +
        (((stepCount.toNat - 1 : Nat) : ℚ) / ((stepCount : ℚ) - 1)) * (b2 : ℚ)) = (b2 : ℚ) by
      rw [ht]; ring]
    rw [qRound_natCast, qRound_natCast, qRound_natCast, hrt2]

/-- C3 counterexample: the first gradient step re-encodes the start color in
lowercase, so for the uppercase input `"#FF0000"` the claimed exact string
equality with `startHex` fails (the computed step is `"#ff0000"`). -/
theorem gradient_endpoint_case :
    (generateGradientSteps [] (fun _ _ => 0) (codes "#FF0000") (codes "#00FF00")
        2)[0]?.map (fun st => st.hex) = some (codes "#ff0000") ∧
      codes "#ff0000" ≠ codes "#FF0000" := by
  have h1 : hexToRgb (codes "#FF0000") = ⟨some 255, some 0, some 0⟩ := by decide
  have h2 : hexToRgb (codes "#00FF00") = ⟨some 0, some 255, some 0⟩ := by decide
  have h0 := gradient_step_eval [] (fun _ _ => 0) h1 h2
    (show (2 : Int) ≤ 2 by omega) (show 0 < (2 : Int).toNat by decide)
  rw [h0]
  refine ⟨?_, by decide⟩
  simp only [Option.map_some']
  have hz : ((0 : Nat) : ℚ) / (((2 : Int) : ℚ) - 1) = 0 := by norm_num
  rw [show qRound ((1 - ((0 : Nat) : ℚ) / (((2 : Int) : ℚ) - 1)) * ((255 : Nat) : ℚ) +
      ((0 : Nat) : ℚ) / (((2 : Int) : ℚ) - 1) * ((0 : Nat) : ℚ)) = 255 by
    rw [hz]; unfold qRound; norm_num]
  rw [show qRound ((1 - ((0 : Nat) : ℚ) / (((2 : Int) : ℚ) - 1)) * ((0 : Nat) : ℚ) +
      ((0 : Nat) : ℚ) / (((2 : Int) : ℚ) - 1) * ((255 : Nat) : ℚ)) = 0 by
    rw [hz]; unfold qRound; norm_num]
  rw [show qRound ((1 - ((0 : Nat) : ℚ) / (((2 : Int) : ℚ) - 1)) * ((0 : Nat) : ℚ) +
      ((0 : Nat) : ℚ) / (((2 : Int) : ℚ) - 1) * ((0 : Nat) : ℚ)) = 0 by
    rw [hz]; unfold qRound; norm_num]
  decide

/-- Witness instantiating the gradient theorem on a black-to-white 3-step
gradient over the empty palette. -/
theorem gradient_steps_spec_witness :
    validHex (codes "#000000") = true ∧ validHex (codes "#ffffff") = true ∧
      (2 : Int) ≤ 3 ∧
      (generateGradientSteps [] (fun _ _ => 0) (codes "#000000") (codes "#ffffff")
        3).length = (3 : Int).toNat :=
  ⟨by decide, by decide, by decide,
    (gradient_steps_spec [] (fun _ _ => 0) (codes "#000000") (codes "#ffffff") 3
      (by decide) (by decide) (by decide)).1⟩

/-- C9 (amended): only the swatch generator clamps (`limit` to [1, 4]); the
nearest-match engine applies no clamping but `limit = 0` simply yields the
empty list without error; the gradient engine applies no stepCount
normalization: `stepCount ≤ 0` yields no steps and `stepCount = 1` produces a
single step whose hex is the invalid non-hex string `"#NaNNaNNaN"`. -/
theorem degenerate_handling :
    (∀ limit : Int, 1 ≤ swatchMatchLimit limit ∧ swatchMatchLimit limit ≤ 4) ∧
    (∀ (allDyes : List Dye) (deltaE : List Nat → List Nat → ℚ) (hex : List Nat),
      findClosestDyesWithDistance allDyes deltaE hex 0 [] = []) ∧
    (∀ (allDyes : List Dye) (deltaE : List Nat → List Nat → ℚ)
      (s e : List Nat) (c : Int), c ≤ 0 →
        generateGradientSteps allDyes deltaE s e c = []) ∧
    ((generateGradientSteps [] (fun _ _ => 0) (codes "#000000")
        (codes "#ffffff") 1).map (fun st => st.hex) = [codes "#NaNNaNNaN"] ∧
      validHex (codes "#NaNNaNNaN") = false) := by
  refine ⟨?_, ?_, ?_, by decide, by decide⟩
  · intro limit
    unfold swatchMatchLimit
    omega
  · intro allDyes deltaE hex
    unfold findClosestDyesWithDistance jsSliceTo
    simp
  · intro allDyes deltaE s e c hc
    unfold generateGradientSteps
    have : c.toNat = 0 := by omega
    rw [this]
    rfl

/-- C9 counterexample: the degenerate call `generateGradientSteps(·, ·, 1)`
is not clamped to the documented minimum of 2 steps; it produces the
invalid non-hex color string `"#NaNNaNNaN"` (0/0 = NaN propagates through
`Math.round` and `toString(16)`). -/
theorem gradient_nan_step :
    (generateGradientSteps [] (fun _ _ => 0) (codes "#ff0000")
        (codes "#0000ff") 1).map (fun st => st.hex) = [codes "#NaNNaNNaN"] ∧
      validHex (codes "#NaNNaNNaN") = false := by
  constructor <;> decide

/-- Witness instantiating the degenerate-input theorem. -/
theorem degenerate_handling_witness :
    generateGradientSteps [] (fun _ _ => 0) (codes "#000000") (codes "#ffffff")
        (-2) = [] :=
  degenerate_handling.2.2.1 [] (fun _ _ => 0) (codes "#000000")
    (codes "#ffffff") (-2) (by decide)

/-! ## C2: the harmony generator (harmony.ts)

The LAB conversion `ColorService.hexToLab` and the hue formula
`atan2(lab.b, lab.a) * 180 / π` live in the external core package, so the hue
angle of a hex color is abstracted as the parameter `hueOf`, and the OKLAB
distance as `deltaE`, exactly as for the nearest-match engine. -/

structure HarmonyMatch where
  dye : Dye
  delta : ℚ
deriving DecidableEq, Repr

/-- Truncation toward zero, as JS number-to-integer conversion in `%`. -/
def ratTrunc (q : ℚ) : Int := if q < 0 then ⌈q⌉ else ⌊q⌋

/-- JS `%` on numbers: remainder carrying the sign of the dividend. -/
def jsMod (a b : ℚ) : ℚ := a - b * (ratTrunc (a / b) : ℚ)

/-- harmony.ts: `((hue % 360) + 360) % 360`. -/
def normalizeHue (h : ℚ) : ℚ := jsMod (jsMod h 360 + 360) 360

/-- harmony.ts lines 129-130: `Math.abs` difference folded to [0, 180]. -/
def circHueDiff (a b : ℚ) : ℚ :=
  if |a - b| > 180 then 360 - |a - b| else |a - b|

/-- Does a candidate with hue difference `d` beat the current best?  The
source initializes `bestHueDiff = Infinity`, so `none` is always beaten. -/
def beatsBest (d : ℚ) : Option (HarmonyMatch × ℚ) → Bool
  | none => true
  | some (_, bd) => decide (d < bd)

/-- Inner candidate scan of harmony.ts `getHarmonyMatches` (lines 117-139):
skips the base dye and already-selected dyes, keeps a strict improvement in
circular hue difference (first-encountered wins ties), and records the OKLAB
distance of the kept candidate as its displayed delta.  The source binds
`hueDiff` and `delta` to locals; they are inlined here. -/
def bestHueLoop (dye : Dye) (hueOf : List Nat → ℚ)
    (deltaE : List Nat → List Nat → ℚ) (nt : ℚ) (selected : List HarmonyMatch) :
    List Dye → Option (HarmonyMatch × ℚ) → Option (HarmonyMatch × ℚ)
  | [], best => best
  | c :: cs, best =>
      if c.id = dye.id then bestHueLoop dye hueOf deltaE nt selected cs best
      else if selected.any (fun m => m.dye.id == c.id) then
        bestHueLoop dye hueOf deltaE nt selected cs best
      else if beatsBest (circHueDiff nt (normalizeHue (hueOf c.hex))) best then
        bestHueLoop dye hueOf deltaE nt selected cs
          (some ({ dye := c, delta := deltaE dye.hex c.hex },
            circHueDiff nt (normalizeHue (hueOf c.hex))))
      else bestHueLoop dye hueOf deltaE nt selected cs best

/-- Outer loop over the target hues (harmony.ts lines 112-144). -/
def harmonyLoop (dye : Dye) (hueOf : List Nat → ℚ)
    (deltaE : List Nat → List Nat → ℚ) (allDyes : List Dye) :
    List ℚ → List HarmonyMatch → List HarmonyMatch
  | [], acc => acc
  | t :: ts, acc =>
      match bestHueLoop dye hueOf deltaE (normalizeHue t) acc allDyes none with
      | some (m, _) => harmonyLoop dye hueOf deltaE allDyes ts (acc ++ [m])
      | none => harmonyLoop dye hueOf deltaE allDyes ts acc

/-- The per-scheme angular offsets of harmony.ts (the switch on
`harmonyType`); the final branch is the `default` case. -/
def targetHues (baseHue : ℚ) (scheme : List Nat) : List ℚ :=
  if scheme = codes "complementary" then [baseHue + 180]
  else if scheme = codes "analogous" then [baseHue - 30, baseHue + 30]
  else if scheme = codes "triadic" then [baseHue + 120, baseHue - 120]
  else if scheme = codes "split-complementary" then [baseHue + 150, baseHue - 150]
  else if scheme = codes "tetradic" then [baseHue + 60, baseHue + 180, baseHue + 240]
  else if scheme = codes "square" then [baseHue + 90, baseHue + 180, baseHue + 270]
  else if scheme = codes "compound" then
    [baseHue + 30, baseHue + 150, baseHue - 150, baseHue - 30]
  else [baseHue + 180]

/-- harmony.ts `getHarmonyMatches`: monochromatic and shades short-circuit to
the nearest-match engine with limit 4 excluding the base; all other schemes
run the hue loop and truncate with `slice(0, 4)`. -/
def getHarmonyMatches (allDyes : List Dye) (hueOf : List Nat → ℚ)
    (deltaE : List Nat → List Nat → ℚ) (dye : Dye) (harmonyType : List Nat) :
    List HarmonyMatch :=
  if harmonyType = codes "monochromatic" ∨ harmonyType = codes "shades" then
    (findClosestDyesWithDistance allDyes deltaE dye.hex 4 [dye.id]).map
      (fun m => { dye := m.dye, delta := m.distance })
  else
    (harmonyLoop dye hueOf deltaE allDyes
      (targetHues (hueOf dye.hex) harmonyType) []).take 4

/-- What it means for the element at position `i` of a harmony result list to
be correctly selected: it is a palette dye other than the base, its delta is
the perceptual distance to the base, it was not selected before, and for some
target hue it minimizes the circular hue difference among all candidates
still eligible at its selection time. -/
def SelProp (dye : Dye) (hueOf : List Nat → ℚ) (deltaE : List Nat → List Nat → ℚ)
    (allDyes : List Dye) (tsAll : List ℚ) (l : List HarmonyMatch) (i : Nat)
    (m : HarmonyMatch) : Prop :=
  m.dye ∈ allDyes ∧ m.dye.id ≠ dye.id ∧ m.delta = deltaE dye.hex m.dye.hex ∧
  (l.take i).any (fun s => s.dye.id == m.dye.id) = false ∧
  ∃ t ∈ tsAll, ∀ c ∈ allDyes, c.id ≠ dye.id →
    (l.take i).any (fun s => s.dye.id == c.id) = false →
    circHueDiff (normalizeHue t) (normalizeHue (hueOf m.dye.hex)) ≤
      circHueDiff (normalizeHue t) (normalizeHue (hueOf c.hex))

theorem bestHueLoop_skip_base {dye : Dye} {hueOf : List Nat → ℚ}
    {deltaE : List Nat → List Nat → ℚ} {nt : ℚ} {selected : List HarmonyMatch}
    {c : Dye} {cs : List Dye} {best : Option (HarmonyMatch × ℚ)}
    (h1 : c.id = dye.id) :
    bestHueLoop dye hueOf deltaE nt selected (c :: cs) best =
      bestHueLoop dye hueOf deltaE nt selected cs best := by
  conv_lhs => rw [bestHueLoop]
  rw [if_pos h1]

theorem bestHueLoop_skip_selected {dye : Dye} {hueOf : List Nat → ℚ}
    {deltaE : List Nat → List Nat → ℚ} {nt : ℚ} {selected : List HarmonyMatch}
    {c : Dye} {cs : List Dye} {best : Option (HarmonyMatch × ℚ)}
    (h1 : ¬ c.id = dye.id)
    (h2 : selected.any (fun s => s.dye.id == c.id) = true) :
    bestHueLoop dye hueOf deltaE nt selected (c :: cs) best =
      bestHueLoop dye hueOf deltaE nt selected cs best := by
  conv_lhs => rw [bestHueLoop]
  rw [if_neg h1, if_pos h2]

theorem bestHueLoop_improve {dye : Dye} {hueOf : List Nat → ℚ}
    {deltaE : List Nat → List Nat → ℚ} {nt : ℚ} {selected : List HarmonyMatch}
    {c : Dye} {cs : List Dye} {best : Option (HarmonyMatch × ℚ)}
    (h1 : ¬ c.id = dye.id)
    (h2 : ¬ selected.any (fun s => s.dye.id == c.id) = true)
    (h3 : beatsBest (circHueDiff nt (normalizeHue (hueOf c.hex))) best = true) :
    bestHueLoop dye hueOf deltaE nt selected (c :: cs) best =
      bestHueLoop dye hueOf deltaE nt selected cs
        (some ({ dye := c, delta := deltaE dye.hex c.hex },
          circHueDiff nt (normalizeHue (hueOf c.hex)))) := by
  conv_lhs => rw [bestHueLoop]
  rw [if_neg h1, if_neg h2, if_pos h3]

theorem bestHueLoop_keep {dye : Dye} {hueOf : List Nat → ℚ}
    {deltaE : List Nat → List Nat → ℚ} {nt : ℚ} {selected : List HarmonyMatch}
    {c : Dye} {cs : List Dye} {best : Option (HarmonyMatch × ℚ)}
    (h1 : ¬ c.id = dye.id)
    (h2 : ¬ selected.any (fun s => s.dye.id == c.id) = true)
    (h3 : ¬ beatsBest (circHueDiff nt (normalizeHue (hueOf c.hex))) best = true) :
    bestHueLoop dye hueOf deltaE nt selected (c :: cs) best =
      bestHueLoop dye hueOf deltaE nt selected cs best := by
  conv_lhs => rw [bestHueLoop]
  rw [if_neg h1, if_neg h2, if_neg h3]

theorem bestHueLoop_spec (dye : Dye) (hueOf : List Nat → ℚ)
    (deltaE : List Nat → List Nat → ℚ) (nt : ℚ) (selected : List HarmonyMatch)
    (allDyes : List Dye) :
    ∀ (cands : List Dye) (best : Option (HarmonyMatch × ℚ)),
      (∀ x ∈ cands, x ∈ allDyes) →
      (∀ m0 bd0, best = some (m0, bd0) →
        bd0 = circHueDiff nt (normalizeHue (hueOf m0.dye.hex)) ∧
        m0.delta = deltaE dye.hex m0.dye.hex ∧ m0.dye.id ≠ dye.id ∧
        selected.any (fun s => s.dye.id == m0.dye.id) = false ∧
        m0.dye ∈ allDyes) →
      ∀ m bd, bestHueLoop dye hueOf deltaE nt selected cands best = some (m, bd) →
        (bd = circHueDiff nt (normalizeHue (hueOf m.dye.hex)) ∧
          m.delta = deltaE dye.hex m.dye.hex ∧ m.dye.id ≠ dye.id ∧
          selected.any (fun s => s.dye.id == m.dye.id) = false ∧
          m.dye ∈ allDyes) ∧
        (∀ c ∈ cands, c.id ≠ dye.id →
          selected.any (fun s => s.dye.id == c.id) = false →
          bd ≤ circHueDiff nt (normalizeHue (hueOf c.hex))) ∧
        (∀ m0 bd0, best = some (m0, bd0) → bd ≤ bd0) := by
  intro cands
  induction cands with
  | nil =>
    intro best hsub hb m bd hres
    have hbest : best = some (m, bd) := hres
    refine ⟨hb m bd hbest, ?_, ?_⟩
    · intro c hc
      simp at hc
    · intro m0 bd0 h0
      rw [hbest] at h0
      injection h0 with h0'
      rw [show bd0 = bd from congrArg Prod.snd h0'.symm]
  | cons c cs ih =>
    intro best hsub hb m bd hres
    have hcsub : ∀ x ∈ cs, x ∈ allDyes := fun x hx => hsub x (List.mem_cons_of_mem c hx)
    by_cases h1 : c.id = dye.id
    · rw [bestHueLoop_skip_base h1] at hres
      obtain ⟨hgood, hmin, hdom⟩ := ih best hcsub hb m bd hres
      refine ⟨hgood, ?_, hdom⟩
      intro x hx hxid hxsel
      rcases List.mem_cons.mp hx with rfl | hx
      · exact absurd h1 hxid
      · exact hmin x hx hxid hxsel
    · by_cases h2 : selected.any (fun s => s.dye.id == c.id) = true
      · rw [bestHueLoop_skip_selected h1 h2] at hres
        obtain ⟨hgood, hmin, hdom⟩ := ih best hcsub hb m bd hres
        refine ⟨hgood, ?_, hdom⟩
        intro x hx hxid hxsel
        rcases List.mem_cons.mp hx with rfl | hx
        · rw [hxsel] at h2
          exact absurd h2 (by simp)
        · exact hmin x hx hxid hxsel
      · have h2' : selected.any (fun s => s.dye.id == c.id) = false :=
          Bool.eq_false_iff.mpr h2
        by_cases h3 : beatsBest (circHueDiff nt (normalizeHue (hueOf c.hex))) best = true
        · rw [bestHueLoop_improve h1 h2 h3] at hres
          have hb' : ∀ m0 bd0,
              some ({ dye := c, delta := deltaE dye.hex c.hex : HarmonyMatch },
                circHueDiff nt (normalizeHue (hueOf c.hex))) = some (m0, bd0) →
              bd0 = circHueDiff nt (normalizeHue (hueOf m0.dye.hex)) ∧
              m0.delta = deltaE dye.hex m0.dye.hex ∧ m0.dye.id ≠ dye.id ∧
              selected.any (fun s => s.dye.id == m0.dye.id) = false ∧
              m0.dye ∈ allDyes := by
            intro m0 bd0 h0
            injection h0 with h0'
            have hm0 : m0 = { dye := c, delta := deltaE dye.hex c.hex } :=
              (congrArg Prod.fst h0').symm
            have hbd0 : bd0 = circHueDiff nt (normalizeHue (hueOf c.hex)) :=
              (congrArg Prod.snd h0').symm
            subst hm0
            exact ⟨hbd0, rfl, h1, h2', hsub c (List.mem_cons_self c cs)⟩
          obtain ⟨hgood, hmin, hdom⟩ := ih _ hcsub hb' m bd hres
          refine ⟨hgood, ?_, ?_⟩
          · intro x hx hxid hxsel
            rcases List.mem_cons.mp hx with rfl | hx
            · exact hdom _ _ rfl
            · exact hmin x hx hxid hxsel
          · intro m0 bd0 h0
            have hbeat : circHueDiff nt (normalizeHue (hueOf c.hex)) < bd0 := by
              rw [h0] at h3
              unfold beatsBest at h3
              exact of_decide_eq_true h3
            have hle := hdom _ _ rfl
            linarith
        · rw [bestHueLoop_keep h1 h2 h3] at hres
          obtain ⟨hgood, hmin, hdom⟩ := ih best hcsub hb m bd hres
          refine ⟨hgood, ?_, hdom⟩
          intro x hx hxid hxsel
          rcases List.mem_cons.mp hx with rfl | hx
          · cases best with
            | none =>
              exact absurd (show beatsBest
                (circHueDiff nt (normalizeHue (hueOf x.hex))) none = true from rfl) h3
            | some p =>
              obtain ⟨m0, bd0⟩ := p
              have hbd0 : bd0 ≤ circHueDiff nt (normalizeHue (hueOf x.hex)) := by
                unfold beatsBest at h3
                have := of_decide_eq_false (Bool.eq_false_iff.mpr h3)
                linarith [not_lt.mp this]
              have := hdom m0 bd0 rfl
              linarith
          · exact hmin x hx hxid hxsel

theorem harmonyLoop_append (dye : Dye) (hueOf : List Nat → ℚ)
    (deltaE : List Nat → List Nat → ℚ) (allDyes : List Dye) :
    ∀ (ts : List ℚ) (acc : List HarmonyMatch),
      ∃ rest, harmonyLoop dye hueOf deltaE allDyes ts acc = acc ++ rest := by
  intro ts
  induction ts with
  | nil =>
    intro acc
    exact ⟨[], by simp [harmonyLoop]⟩
  | cons t ts ih =>
    intro acc
    unfold harmonyLoop
    cases hb : bestHueLoop dye hueOf deltaE (normalizeHue t) acc allDyes none with
    | none => exact ih acc
    | some p =>
      obtain ⟨m, bd⟩ := p
      obtain ⟨rest, hr⟩ := ih (acc ++ [m])
      refine ⟨[m] ++ rest, ?_⟩
      show harmonyLoop dye hueOf deltaE allDyes ts (acc ++ [m]) =
        acc ++ ([m] ++ rest)
      rw [hr, List.append_assoc]

theorem harmonyLoop_spec (dye : Dye) (hueOf : List Nat → ℚ)
    (deltaE : List Nat → List Nat → ℚ) (allDyes : List Dye) (tsAll : List ℚ) :
    ∀ (ts : List ℚ) (acc : List HarmonyMatch),
      (∀ t ∈ ts, t ∈ tsAll) →
      (∀ i m, acc[i]? = some m → SelProp dye hueOf deltaE allDyes tsAll acc i m) →
      ∀ i m, (harmonyLoop dye hueOf deltaE allDyes ts acc)[i]? = some m →
        SelProp dye hueOf deltaE allDyes tsAll
          (harmonyLoop dye hueOf deltaE allDyes ts acc) i m := by
  intro ts
  induction ts with
  | nil =>
    intro acc _ hacc i m hi
    exact hacc i m hi
  | cons t ts ih =>
    intro acc hts hacc i m
    unfold harmonyLoop
    cases hb : bestHueLoop dye hueOf deltaE (normalizeHue t) acc allDyes none with
    | none =>
      exact ih acc (fun x hx => hts x (List.mem_cons_of_mem t hx)) hacc i m
    | some p =>
      obtain ⟨mNew, bd⟩ := p
      apply ih (acc ++ [mNew]) (fun x hx => hts x (List.mem_cons_of_mem t hx))
      intro j m' hj
      have hjlt : j < acc.length + 1 := by
        have h1 := List.getElem?_eq_some.mp hj
        obtain ⟨hlt, _⟩ := h1
        simpa using hlt
      by_cases hjlen : j < acc.length
      · have heq : (acc ++ [mNew])[j]? = acc[j]? := List.getElem?_append_left hjlen
        have hsel := hacc j m' (by rw [← heq]; exact hj)
        have htake : (acc ++ [mNew]).take j = acc.take j :=
          List.take_append_of_le_length (le_of_lt hjlen)
        unfold SelProp at hsel ⊢
        rw [htake]
        exact hsel
      · have hje : j = acc.length := by omega
        subst hje
        have hm' : m' = mNew := by
          have hidx : (acc ++ [mNew])[acc.length]? = some mNew := by
            rw [List.getElem?_append_right (le_refl _)]
            simp
          rw [hidx] at hj
          injection hj with hj'
          exact hj'.symm
        subst hm'
        have hspec := bestHueLoop_spec dye hueOf deltaE (normalizeHue t) acc
          allDyes allDyes none (fun x hx => hx)
          (by intro m0 bd0 h0; exact absurd h0 (by simp)) m' bd hb
        obtain ⟨⟨hbd, hdelta, hid, hsel, hmem⟩, hmin, _⟩ := hspec
        have htake : (acc ++ [m']).take acc.length = acc := by
          rw [List.take_append_of_le_length (le_refl _), List.take_length]
        unfold SelProp
        rw [htake]
        refine ⟨hmem, hid, hdelta, hsel, t, hts t (List.mem_cons_self t ts), ?_⟩
        intro c hc hcid hcsel
        have := hmin c hc hcid hcsel
        rw [hbd] at this
        exact this

theorem jsSliceTo_four_le {α : Type} (l : List α) :
    (jsSliceTo l 4).length ≤ 4 := by
  unfold jsSliceTo
  rw [if_neg (by omega)]
  exact List.length_take_le (4 : Int).toNat l

/-- C2: the harmony generator uses exactly the fixed per-scheme angular
offsets (unknown schemes fall back to the complementary offset), returns the
nearest-match lookup (limit 4, base excluded) for monochromatic and shades,
returns at most 4 matches, and every returned match is a non-base palette
dye, carries the perceptual distance to the base as its delta, and minimizes
the circular hue difference to one of the target hues among the candidates
still eligible when it was selected. -/
theorem harmony_spec (allDyes : List Dye) (hueOf : List Nat → ℚ)
    (deltaE : List Nat → List Nat → ℚ) (dye : Dye) :
    (∀ h : ℚ,
      targetHues h (codes "complementary") = [h + 180] ∧
      targetHues h (codes "analogous") = [h - 30, h + 30] ∧
      targetHues h (codes "triadic") = [h + 120, h - 120] ∧
      targetHues h (codes "split-complementary") = [h + 150, h - 150] ∧
      targetHues h (codes "tetradic") = [h + 60, h + 180, h + 240] ∧
      targetHues h (codes "square") = [h + 90, h + 180, h + 270] ∧
      targetHues h (codes "compound") = [h + 30, h + 150, h - 150, h - 30]) ∧
    (∀ s : List Nat,
      s ∉ [codes "complementary", codes "analogous", codes "triadic",
        codes "split-complementary", codes "tetradic", codes "square",
        codes "compound"] →
      ∀ h : ℚ, targetHues h s = [h + 180]) ∧
    (getHarmonyMatches allDyes hueOf deltaE dye (codes "monochromatic") =
      (findClosestDyesWithDistance allDyes deltaE dye.hex 4 [dye.id]).map
        (fun m => { dye := m.dye, delta := m.distance }) ∧
     getHarmonyMatches allDyes hueOf deltaE dye (codes "shades") =
      (findClosestDyesWithDistance allDyes deltaE dye.hex 4 [dye.id]).map
        (fun m => { dye := m.dye, delta := m.distance })) ∧
    (∀ s : List Nat, (getHarmonyMatches allDyes hueOf deltaE dye s).length ≤ 4) ∧
    (∀ s : List Nat, s ≠ codes "monochromatic" → s ≠ codes "shades" →
      ∀ i m, (getHarmonyMatches allDyes hueOf deltaE dye s)[i]? = some m →
        SelProp dye hueOf deltaE allDyes (targetHues (hueOf dye.hex) s)
          (getHarmonyMatches allDyes hueOf deltaE dye s) i m) := by
  refine ⟨?_, ?_, ?_, ?_, ?_⟩
  · intro h
    refine ⟨rfl, ?_, ?_, ?_, ?_, ?_, ?_⟩ <;>
      · unfold targetHues
        repeat (first | rw [if_pos rfl] | rw [if_neg (by decide)])
  · intro s hs h
    unfold targetHues
    simp only [List.mem_cons, List.not_mem_nil, or_false, not_or] at hs
    obtain ⟨n1, n2, n3, n4, n5, n6, n7⟩ := hs
    rw [if_neg n1, if_neg n2, if_neg n3, if_neg n4, if_neg n5, if_neg n6, if_neg n7]
  · constructor
    · unfold getHarmonyMatches
      rw [if_pos (Or.inl rfl)]
    · unfold getHarmonyMatches
      rw [if_pos (Or.inr rfl)]
  · intro s
    unfold getHarmonyMatches
    split_ifs with hcase
    · rw [List.length_map]
      unfold findClosestDyesWithDistance
      exact jsSliceTo_four_le _
    · exact List.length_take_le 4 (harmonyLoop dye hueOf deltaE allDyes
        (targetHues (hueOf dye.hex) s) [])
  · intro s hmono hshades i m hm
    have hcase : ¬ (s = codes "monochromatic" ∨ s = codes "shades") := by
      rintro (h | h)
      · exact hmono h
      · exact hshades h
    have hdef : getHarmonyMatches allDyes hueOf deltaE dye s =
        (harmonyLoop dye hueOf deltaE allDyes
          (targetHues (hueOf dye.hex) s) []).take 4 := by
      unfold getHarmonyMatches
      rw [if_neg hcase]
    rw [hdef] at hm
    have hi4 : i < 4 := by
      have h1 := List.getElem?_eq_some.mp hm
      obtain ⟨hlt, _⟩ := h1
      have := List.length_take_le 4 (harmonyLoop dye hueOf deltaE allDyes
        (targetHues (hueOf dye.hex) s) [])
      have h2 := List.length_take 4 (harmonyLoop dye hueOf deltaE allDyes
        (targetHues (hueOf dye.hex) s) [])
      omega
    have hm' : (harmonyLoop dye hueOf deltaE allDyes
        (targetHues (hueOf dye.hex) s) [])[i]? = some m := by
      rw [← List.getElem?_take_of_lt hi4]
      exact hm
    have hloop := harmonyLoop_spec dye hueOf deltaE allDyes
      (targetHues (hueOf dye.hex) s) (targetHues (hueOf dye.hex) s) []
      (fun t ht => ht) (by intro j m' hj; simp at hj) i m hm'
    unfold SelProp at hloop ⊢
    rw [hdef]
    have htake : ((harmonyLoop dye hueOf deltaE allDyes
        (targetHues (hueOf dye.hex) s) []).take 4).take i =
        (harmonyLoop dye hueOf deltaE allDyes
          (targetHues (hueOf dye.hex) s) []).take i := by
      rw [List.take_take]
      congr 1
      omega
    rw [htake]
    exact hloop

/-- Witness instantiating the harmony theorem: the unknown scheme string
falls back to the single complementary offset. -/
theorem harmony_spec_witness :
    targetHues 10 (codes "unknown-scheme") = [10 + 180] :=
  (harmony_spec [] (fun _ => 0) (fun _ _ => 0)
    { id := 0, itemID := 0, hex := codes "#000000" }).2.1
    (codes "unknown-scheme") (by decide) 10

/-! ## C10: mixer routing (mixer.ts) -/

/-- mixer.ts local `mixColors`: per channel
`Math.round(rgb1.c * t + rgb2.c * (1 - t))` with `t = ratio / 100`; the local
`hexToRgb`/`rgbToHex` copies are identical to the base.ts ones. -/
def mixColors (color1 color2 : List Nat) (p : Int) : List Nat :=
  let rgb1 := hexToRgb color1
  let rgb2 := hexToRgb color2
  let t : ℚ := (p : ℚ) / 100
  rgbToHex
    (jqRound (jqAdd (jqMul (jqOfNat rgb1.r) (some t))
      (jqMul (jqOfNat rgb2.r) (some (1 - t)))))
    (jqRound (jqAdd (jqMul (jqOfNat rgb1.g) (some t))
      (jqMul (jqOfNat rgb2.g) (some (1 - t)))))
    (jqRound (jqAdd (jqMul (jqOfNat rgb1.b) (some t))
      (jqMul (jqOfNat rgb2.b) (some (1 - t)))))

def jqDiv3 (x : Option ℚ) : Option ℚ := x.map (fun v => v / 3)

/-- mixer.ts `mixThreeColors`: per-channel unweighted mean, rounded. -/
def mixThreeColors (c1 c2 c3 : List Nat) : List Nat :=
  let rgb1 := hexToRgb c1
  let rgb2 := hexToRgb c2
  let rgb3 := hexToRgb c3
  rgbToHex
    (jqRound (jqDiv3 (jqAdd (jqAdd (jqOfNat rgb1.r) (jqOfNat rgb2.r))
      (jqOfNat rgb3.r))))
    (jqRound (jqDiv3 (jqAdd (jqAdd (jqOfNat rgb1.g) (jqOfNat rgb2.g))
      (jqOfNat rgb3.g))))
    (jqRound (jqDiv3 (jqAdd (jqAdd (jqOfNat rgb1.b) (jqOfNat rgb2.b))
      (jqOfNat rgb3.b))))

/-- The three layouts a mixer request can produce; the SVG markup built from
each is abstracted to its input data. -/
inductive MixerLayout where
  | fallbackCard (p : Int) (isThreeDye : Bool)
  | twoDye (a b : Dye) (p : Int) (mixedHex : List Nat) (closest : Option DyeMatch)
  | threeDye (a b c : Dye) (mixedHex : List Nat) (closest : Option DyeMatch)
deriving DecidableEq

/-- dye-helpers.ts `getDyeByItemId`: find by itemID. -/
def getDyeByItemId (allDyes : List Dye) (itemId : Int) : Option Dye :=
  allDyes.find? (fun d => d.itemID == itemId)

/-- mixer.ts `generateTwoDyeMixerOG` (data content): re-checks both dyes,
mixes, and resolves the closest match with limit 1. -/
def generateTwoDyeMixerOG (allDyes : List Dye)
    (deltaE : List Nat → List Nat → ℚ) (dyeA dyeB : Option Dye) (p : Int) :
    MixerLayout :=
  match dyeA, dyeB with
  | some a, some b =>
      MixerLayout.twoDye a b p (mixColors a.hex b.hex p)
        (findClosestDyesWithDistance allDyes deltaE (mixColors a.hex b.hex p)
          1 []).head?
  | _, _ => MixerLayout.fallbackCard p false

/-- mixer.ts `generateThreeDyeMixerOG` (data content). -/
def generateThreeDyeMixerOG (allDyes : List Dye)
    (deltaE : List Nat → List Nat → ℚ) (a b c : Dye) : MixerLayout :=
  MixerLayout.threeDye a b c (mixThreeColors a.hex b.hex c.hex)
    (findClosestDyesWithDistance allDyes deltaE
      (mixThreeColors a.hex b.hex c.hex) 1 []).head?

/-- JS truthiness of the optional `dyeCId` number (0 is falsy; NaN ids are
outside this model and behave like 0 in the source). -/
def jsTruthyInt : Option Int → Bool
  | none => false
  | some c => decide (c ≠ 0)

/-- mixer.ts `generateMixerOG` routing:
`dyeC = dyeCId ? getDyeByItemId(dyeCId) : null`, then fallback when A or B is
missing, two-dye when `dyeCId` was given but did not resolve, three-dye when
it resolved, two-dye otherwise. -/
def generateMixerOG (allDyes : List Dye) (deltaE : List Nat → List Nat → ℚ)
    (dyeAId dyeBId : Int) (dyeCId : Option Int) (p : Int) : MixerLayout :=
  let dyeA := getDyeByItemId allDyes dyeAId
  let dyeB := getDyeByItemId allDyes dyeBId
  let dyeC := if jsTruthyInt dyeCId then getDyeByItemId allDyes (dyeCId.getD 0)
    else none
  if dyeA.isNone || dyeB.isNone then MixerLayout.fallbackCard p dyeC.isSome
  else if jsTruthyInt dyeCId && dyeC.isNone then
    generateTwoDyeMixerOG allDyes deltaE dyeA dyeB p
  else
    match dyeC with
    | some c =>
        match dyeA, dyeB with
        | some a, some b => generateThreeDyeMixerOG allDyes deltaE a b c
        | _, _ => MixerLayout.fallbackCard p true
    | none => generateTwoDyeMixerOG allDyes deltaE dyeA dyeB p

/-- C10: when both dyeA and dyeB resolve but a provided dyeCId does not, the
mixer returns the two-dye blend layout computed from dyeA, dyeB and the given
mix percentage, not the fallback layout. -/
theorem mixer_dyeC_missing_two_dye (allDyes : List Dye)
    (deltaE : List Nat → List Nat → ℚ) (dyeAId dyeBId c p : Int) (a b : Dye)
    (ha : getDyeByItemId allDyes dyeAId = some a)
    (hb : getDyeByItemId allDyes dyeBId = some b)
    (hc : getDyeByItemId allDyes c = none) :
    generateMixerOG allDyes deltaE dyeAId dyeBId (some c) p =
      MixerLayout.twoDye a b p (mixColors a.hex b.hex p)
        (findClosestDyesWithDistance allDyes deltaE (mixColors a.hex b.hex p)
          1 []).head? := by
  by_cases hz : c = 0
  · subst hz
    simp only [generateMixerOG, jsTruthyInt, ha, hb]
    norm_num
    rfl
  · have ht : jsTruthyInt (some c) = true := by
      unfold jsTruthyInt
      exact decide_eq_true hz
    simp only [generateMixerOG, ha, hb, ht, Option.getD_some, hc]
    rfl

/-- Witness instantiating the mixer routing theorem on a concrete palette. -/
theorem mixer_dyeC_missing_two_dye_witness :
    generateMixerOG
      [{ id := 1, itemID := 11, hex := codes "#b22222" },
       { id := 2, itemID := 12, hex := codes "#fffafa" }]
      (fun _ _ => 0) 11 12 (some 99) 60 =
      MixerLayout.twoDye { id := 1, itemID := 11, hex := codes "#b22222" }
        { id := 2, itemID := 12, hex := codes "#fffafa" } 60
        (mixColors (codes "#b22222") (codes "#fffafa") 60)
        (findClosestDyesWithDistance
          [{ id := 1, itemID := 11, hex := codes "#b22222" },
           { id := 2, itemID := 12, hex := codes "#fffafa" }]
          (fun _ _ => 0)
          (mixColors (codes "#b22222") (codes "#fffafa") 60) 1 []).head? :=
  mixer_dyeC_missing_two_dye
    [{ id := 1, itemID := 11, hex := codes "#b22222" },
     { id := 2, itemID := 12, hex := codes "#fffafa" }]
    (fun _ _ => 0) 11 12 99 60
    { id := 1, itemID := 11, hex := codes "#b22222" }
    { id := 2, itemID := 12, hex := codes "#fffafa" }
    (by decide) (by decide) (by decide)

end XivOg
